import Mathlib

/-!
# Fleece: a shallow embedding of `Writer`, and of the inline parts of `Encoder`, `Array`, `Doc`

The larger part of this file is about `Fleece/Writer.cc` and `Fleece/Writer.hh`; the member
functions of `Encoder.hh`, `Array.hh` and `Core/Doc.hh` whose bodies are in the headers follow
the writer.

The C++ `Writer` keeps two slices, `_buffer` (the whole heap block) and `_available`
(the unwritten tail of that block).  The embedding keeps both slices as they are in the
source and adds the memory they point into, so that `memcpy`, `malloc` and `realloc`
become functions on that memory.

* `size_t` is 64 bits wide: every `size_t` computation is reduced modulo `2 ^ 64`.
* Addresses are natural numbers, `0` is the null pointer.
* What the allocator answers is an argument of each operation (`Allocation`): the
  returned pointer (null on failure) and the content of the fresh, uninitialised bytes.
* An operation ends in one of four ways: it returns, it throws `std::bad_alloc`, its
  `assert` fails, or it never leaves the doubling loop of `growToFit`.
-/

namespace fleece

/-! ## Machine integers, memory and the allocator -/

/-- Number of values of the 64-bit type `size_t`. -/
def SIZE_MOD : Nat := 2 ^ 64

/-- Subtraction of two `size_t` values, wrapping around as unsigned arithmetic does. -/
def size_sub (a b : Nat) : Nat := (a % SIZE_MOD + SIZE_MOD - b % SIZE_MOD) % SIZE_MOD

/-- Addition of two `size_t` values, wrapping around as unsigned arithmetic does. -/
def size_add (a b : Nat) : Nat := (a + b) % SIZE_MOD

/-- Multiplication of two `size_t` values, wrapping around as unsigned arithmetic does. -/
def size_mul (a b : Nat) : Nat := (a * b) % SIZE_MOD

/-- Byte-addressed memory. -/
abbrev Heap := Nat → UInt8

/-- Answer of one call of `malloc` or `realloc`: the pointer returned (`0` is null) and
what the bytes of the block that were not copied from an older block happen to hold. -/
structure Allocation where
  ptr : Nat
  fresh : Nat → UInt8

/-- Memory after `::memcpy(dst, data, |data|)`. -/
def memcpy (h : Heap) (dst : Nat) (data : List UInt8) : Heap :=
  fun x => if dst ≤ x then (data[x - dst]?).getD (h x) else h x

/-- Memory after `::malloc(size)` answered by `a`: a null answer changes nothing, otherwise the
block `[a.ptr, a.ptr + size)` holds uninitialised bytes. -/
def malloc (h : Heap) (size : Nat) (a : Allocation) : Heap :=
  if a.ptr = 0 then h
  else fun x => if a.ptr ≤ x ∧ x < a.ptr + size then a.fresh (x - a.ptr) else h x

/-- Memory after `::realloc(old, newSize)` answered by `a`, where the block at `old` had
`oldSize` bytes (`0` for a null `old`).  A null answer leaves the memory as it is; otherwise
the new block starts with the first `min oldSize newSize` bytes of the old one and the
rest of it is uninitialised. -/
def realloc (h : Heap) (old oldSize newSize : Nat) (a : Allocation) : Heap :=
  if a.ptr = 0 then h
  else fun x =>
    if a.ptr ≤ x ∧ x < a.ptr + newSize then
      (if x - a.ptr < min oldSize newSize then h (old + (x - a.ptr)) else a.fresh (x - a.ptr))
    else h x

/-! ## `slice` -/

/-- Modelled from the spec: `slice.hh` is not among the sources; the spec describes the
slice primitive as a `(pointer, length)` view type. -/
structure slice where
  buf : Nat
  size : Nat
deriving DecidableEq, Repr

/-- Modelled from the spec: `slice::null` of the absent `slice.hh`, the null pointer with
length zero. -/
def slice.null : slice := ⟨0, 0⟩

/-- Modelled from the spec: `slice::moveStart(delta)` of the absent `slice.hh`; the start of
the view advances by `delta` and its end stays, so the `size_t` length shrinks by `delta`. -/
def slice.moveStart (s : slice) (delta : Nat) : slice :=
  ⟨s.buf + delta, size_sub s.size delta⟩

/-- Bytes a slice views in the memory `h`. -/
def slice.bytes (s : slice) (h : Heap) : List UInt8 :=
  (List.range s.size).map fun i => h (s.buf + i)

/-! ## `Writer` -/

/-- Ways a call can end other than by returning. -/
inductive Failure where
  /-- The call ends in `throw std::bad_alloc()`. -/
  | bad_alloc
  /-- An `assert` of the call fails. -/
  | assertion
  /-- The `do`/`while` loop of `growToFit` never exits. -/
  | nontermination
deriving DecidableEq, Repr

/-- The two data members of `class Writer`, and the memory they point into. -/
structure Writer where
  _buffer : slice
  _available : slice
  heap : Heap

/-- Embedding of `Writer::kDefaultInitialCapacity`. -/
def Writer.kDefaultInitialCapacity : Nat := 256

/-- Embedding of `Writer::Writer(size_t initialCapacity)`, running in memory `h`. -/
def Writer.new (h : Heap) (initialCapacity : Nat) (a : Allocation) : Except Failure Writer :=
  let _buffer : slice := ⟨a.ptr, initialCapacity⟩
  let _available : slice := _buffer
  if _buffer.buf = 0 then .error .bad_alloc
  else .ok ⟨_buffer, _available, malloc h initialCapacity a⟩

/-- Embedding of `Writer::length()`. -/
def Writer.length (w : Writer) : Nat := size_sub w._buffer.size w._available.size

/-- Embedding of `Writer::output()`. -/
def Writer.output (w : Writer) : slice := ⟨w._buffer.buf, w.length⟩

/-- The byte sequence `output()` views. -/
def Writer.outputBytes (w : Writer) : List UInt8 := w.output.bytes w.heap

/-- The `do { newSize *= 2; } while (len + amount > newSize);` loop of `growToFit`, run for at
most `fuel` iterations; `target` is the value of `len + amount`. -/
def growLoop : Nat → Nat → Nat → Option Nat
  | 0, _, _ => none
  | fuel + 1, newSize, target =>
    let newSize := size_mul newSize 2
    if target > newSize then growLoop fuel newSize target else some newSize

/-- Embedding of `Writer::growToFit(amount)`.  After 64 doublings `newSize` is `0` for good,
so a loop that has not exited by then never exits (`growLoop_fuel`). -/
def Writer.growToFit (w : Writer) (amount : Nat) (a : Allocation) : Except Failure Writer :=
  let len := w.length
  let newSize := if w._buffer.size ≠ 0 then w._buffer.size else Writer.kDefaultInitialCapacity / 2
  match growLoop 64 newSize (size_add len amount) with
  | none => .error .nontermination
  | some newSize =>
    if a.ptr = 0 then .error .bad_alloc
    else
      let heap := realloc w.heap w._buffer.buf w._buffer.size newSize a
      let s : slice := ⟨a.ptr, newSize⟩
      .ok { _buffer := s, _available := s.moveStart len, heap := heap }

/-- Embedding of `Writer::write(data, length)`; the bytes at `data` are the list and
`length` is its length. -/
def Writer.write (w : Writer) (data : List UInt8) (a : Allocation) : Except Failure Writer :=
  let length := data.length
  match (if w._available.size < length then w.growToFit length a else .ok w) with
  | .error e => .error e
  | .ok w =>
    .ok { w with heap := memcpy w.heap w._available.buf data,
                 _available := w._available.moveStart length }

/-- Embedding of `Writer::operator<< (slice s)`. -/
def Writer.shl_slice (w : Writer) (s : List UInt8) (a : Allocation) : Except Failure Writer :=
  w.write s a

/-- Embedding of `Writer::operator<< (uint8_t byte)`. -/
def Writer.shl_byte (w : Writer) (byte : UInt8) (a : Allocation) : Except Failure Writer :=
  w.shl_slice [byte] a

/-- Embedding of `Writer::reserveSpace(length)`; returns `pos` and the new state. -/
def Writer.reserveSpace (w : Writer) (length : Nat) (a : Allocation) :
    Except Failure (Nat × Writer) :=
  let pos := w.length
  match (if w._available.size < length then w.growToFit length a else .ok w) with
  | .error e => .error e
  | .ok w => .ok (pos, { w with _available := w._available.moveStart length })

/-- Embedding of `Writer::rewrite(pos, data)`. -/
def Writer.rewrite (w : Writer) (pos : Nat) (data : List UInt8) : Except Failure Writer :=
  if size_add pos data.length ≤ w.length then
    .ok { w with heap := memcpy w.heap (w._buffer.buf + pos) data }
  else .error .assertion

/-- Embedding of `Writer::extractOutput()`; returns the slice and the new state. -/
def Writer.extractOutput (w : Writer) (a : Allocation) : Except Failure (slice × Writer) :=
  let buf := w._buffer.buf
  let len := w.length
  let r : Nat × Heap :=
    if len < w._buffer.size then (a.ptr, realloc w.heap buf w._buffer.size len a)
    else (buf, w.heap)
  .ok (⟨r.1, len⟩, { _buffer := slice.null, _available := slice.null, heap := r.2 })

/-- Invariant of the two slices: sizes are `size_t` values and `_available` is a tail of
`_buffer`. -/
def Writer.Valid (w : Writer) : Prop :=
  w._buffer.size < SIZE_MOD ∧ w._available.size ≤ w._buffer.size ∧
    w._available.buf = w._buffer.buf + (w._buffer.size - w._available.size)

instance (w : Writer) : Decidable w.Valid := by
  unfold Writer.Valid; infer_instance

/-- The doubling of `growToFit` starting from `c` reaches `t` without any `size_t`
overflow: some `c * 2 ^ k` with `k ≥ 1` is at least `t` and still a `size_t` value. -/
def NoOverflow (c t : Nat) : Prop := ∃ k, 1 ≤ k ∧ t ≤ c * 2 ^ k ∧ c * 2 ^ k < SIZE_MOD

/-- One appending call on a `Writer`. -/
inductive Call where
  /-- The call `write(data, length)`. -/
  | write (data : List UInt8)
  /-- The call `operator<< (slice)`. -/
  | shl_slice (s : List UInt8)
  /-- The call `operator<< (uint8_t)`. -/
  | shl_byte (byte : UInt8)

/-- The bytes a call hands to the writer. -/
def Call.bytes : Call → List UInt8
  | .write data => data
  | .shl_slice s => s
  | .shl_byte byte => [byte]

/-- Performs one appending call. -/
def Writer.call (w : Writer) (c : Call) (a : Allocation) : Except Failure Writer :=
  match c with
  | .write data => w.write data a
  | .shl_slice s => w.shl_slice s a
  | .shl_byte byte => w.shl_byte byte a

/-- Performs a sequence of appending calls, each with the answer the allocator would give
it. -/
def Writer.run : Writer → List (Call × Allocation) → Except Failure Writer
  | w, [] => .ok w
  | w, (c, a) :: rest =>
    match w.call c a with
    | .error e => .error e
    | .ok w1 => w1.run rest

/-- A sample state: capacity 4 at address 1000, two bytes written. -/
def sampleWriter : Writer :=
  { _buffer := ⟨1000, 4⟩, _available := ⟨1002, 2⟩,
    heap := fun x => if x = 1000 then 10 else if x = 1001 then 11 else 0 }

/-- A successful allocator answer at address 5000, fresh bytes holding 0xAA. -/
def sampleAlloc : Allocation := ⟨5000, fun _ => 0xAA⟩

/-- The allocator answering with the null pointer. -/
def nullAlloc : Allocation := ⟨0, fun _ => 0⟩

/-- A sample sequence of calls, each answered by a fresh block. -/
def sampleCalls : List (Call × Allocation) :=
  [(.write [1, 2], ⟨2000, fun _ => 0⟩), (.shl_byte 3, ⟨3000, fun _ => 0⟩),
   (.shl_slice [4, 5, 6], ⟨4000, fun _ => 0⟩)]

/-! ## The writer as a call leaves it -/

/-- Embedding of the default argument of the constructor,
`Writer(size_t initialCapacity = kDefaultInitialCapacity)`. -/
def Writer.new_default (h : Heap) (a : Allocation) : Except Failure Writer :=
  Writer.new h Writer.kDefaultInitialCapacity a

/-- The object and the memory at the moment a call ends, together with how it ended.  After
a `throw` the object lives on in the state recorded here. -/
structure Ended (α : Type) where
  writer : Writer
  result : Except Failure α

/-- Embedding of `Writer::growToFit(amount)` that keeps the state in which the call ends: the
loop only changes locals, `::realloc` has run when the null test is made, and the two members
are assigned after that test. -/
def Writer.growToFit_ended (w : Writer) (amount : Nat) (a : Allocation) : Ended Unit :=
  let len := w.length
  let newSize := if w._buffer.size ≠ 0 then w._buffer.size else Writer.kDefaultInitialCapacity / 2
  match growLoop 64 newSize (size_add len amount) with
  | none => ⟨w, .error .nontermination⟩
  | some newSize =>
    let heap := realloc w.heap w._buffer.buf w._buffer.size newSize a
    if a.ptr = 0 then ⟨{ w with heap := heap }, .error .bad_alloc⟩
    else
      let s : slice := ⟨a.ptr, newSize⟩
      ⟨{ _buffer := s, _available := s.moveStart len, heap := heap }, .ok ()⟩

/-- Embedding of `Writer::write(data, length)` that keeps the state in which the call ends. -/
def Writer.write_ended (w : Writer) (data : List UInt8) (a : Allocation) : Ended Unit :=
  let length := data.length
  let g : Ended Unit :=
    if w._available.size < length then w.growToFit_ended length a else ⟨w, .ok ()⟩
  match g.result with
  | .error e => ⟨g.writer, .error e⟩
  | .ok _ =>
    ⟨{ g.writer with heap := memcpy g.writer.heap g.writer._available.buf data,
                     _available := g.writer._available.moveStart length }, .ok ()⟩

/-- Embedding of `Writer::reserveSpace(length)` that keeps the state in which the call
ends. -/
def Writer.reserveSpace_ended (w : Writer) (length : Nat) (a : Allocation) : Ended Nat :=
  let pos := w.length
  let g : Ended Unit :=
    if w._available.size < length then w.growToFit_ended length a else ⟨w, .ok ()⟩
  match g.result with
  | .error e => ⟨g.writer, .error e⟩
  | .ok _ => ⟨{ g.writer with _available := g.writer._available.moveStart length }, .ok pos⟩

/-- States a `Writer` object can be in: what the size constructor builds, and what `write`,
`reserveSpace`, `rewrite` and `extractOutput` make of such a state when they return.  Sizes
passed to the calls are `size_t` values.  (A call that throws leaves the state it found,
see `Writer.write_ended`.) -/
inductive Writer.Reachable : Writer → Prop
  | ctor (h : Heap) (c : Nat) (a : Allocation) (w : Writer) :
      c < SIZE_MOD → Writer.new h c a = .ok w → Writer.Reachable w
  | write (w : Writer) (d : List UInt8) (a : Allocation) (w1 : Writer) :
      Writer.Reachable w → d.length < SIZE_MOD → w.write d a = .ok w1 → Writer.Reachable w1
  | reserveSpace (w : Writer) (n : Nat) (a : Allocation) (pos : Nat) (w1 : Writer) :
      Writer.Reachable w → n < SIZE_MOD → w.reserveSpace n a = .ok (pos, w1) →
      Writer.Reachable w1
  | rewrite (w : Writer) (pos : Nat) (d : List UInt8) (w1 : Writer) :
      Writer.Reachable w → w.rewrite pos d = .ok w1 → Writer.Reachable w1
  | extractOutput (w : Writer) (a : Allocation) (s : slice) (w1 : Writer) :
      Writer.Reachable w → w.extractOutput a = .ok (s, w1) → Writer.Reachable w1

/-- The capacity invariant with addresses compared as 64-bit values: the sizes are `size_t`
values, `_available` is no larger than `_buffer`, and both end at the same address. -/
def Writer.CapacityInv (w : Writer) : Prop :=
  w._buffer.size < SIZE_MOD ∧ w._available.size ≤ w._buffer.size ∧
    (w._available.buf + w._available.size) % SIZE_MOD
      = (w._buffer.buf + w._buffer.size) % SIZE_MOD

/-- The state `Writer(1)` builds in zeroed memory when the allocator answers with
`sampleAlloc`. -/
def sampleFresh : Writer :=
  { _buffer := ⟨5000, 1⟩, _available := ⟨5000, 1⟩, heap := malloc (fun _ => 0) 1 sampleAlloc }

/-- The allocator answering with a block at address 6000. -/
def sampleAlloc2 : Allocation := ⟨6000, fun _ => 0⟩

/-- The state `sampleFresh` is in after `write` of the three bytes 1, 2, 3, which moves the
buffer to a block of four bytes at address 6000. -/
def sampleReached : Writer :=
  { _buffer := ⟨6000, 4⟩, _available := ⟨6003, 1⟩,
    heap := memcpy (realloc sampleFresh.heap 5000 1 4 sampleAlloc2) 6000 [1, 2, 3] }

/-! ## Moving a writer -/

/-- The two objects after a move: the destination and the moved-from source.  Both live in
one memory, which a move does not touch. -/
structure Moved where
  dest : Writer
  source : Writer

/-- Embedding of the move constructor `Writer::Writer(Writer&& w)`: the new object takes both
slices of `w`, then `w._buffer = slice::null`. -/
def Writer.move_construct (w : Writer) : Moved :=
  { dest := { _buffer := w._buffer, _available := w._available, heap := w.heap },
    source := { w with _buffer := slice.null } }

/-- The `Writer` objects of a program: the two data members of the object at each address,
and the one memory all of them point into. -/
structure Objects where
  _buffer : Nat → slice
  _available : Nat → slice
  heap : Heap

/-- The writer object at address `p`. -/
def Objects.writer (o : Objects) (p : Nat) : Writer :=
  { _buffer := o._buffer p, _available := o._available p, heap := o.heap }

/-- Embedding of the move assignment `Writer::operator= (Writer&& w)`, statement by statement,
called on the object at address `self` (`this`) with the object at address `w`.  The two
addresses may be one and the same, as in `w = std::move(w)`; an assignment to a member of
one object is then an assignment to the member of the other. -/
def Writer.move_assign (o : Objects) (self w : Nat) : Objects :=
  let o1 : Objects :=
    { o with _buffer := fun p => if p = self then o._buffer w else o._buffer p }
  let o2 : Objects :=
    { o1 with _available := fun p => if p = self then o1._available w else o1._available p }
  { o2 with _buffer := fun p => if p = w then slice.null else o2._buffer p }

/-! ## `Encoder` (`Fleece/Encoder.hh`) -/

/-- Error codes of a `FleeceException`.  `FleeceException.hh` is not among the sources; the
codes are those of `FLError` in `Fleece.h`, in its order. -/
inductive ErrorCode where
  | NoError
  | MemoryError
  | OutOfRange
  | InvalidData
  | EncodeError
  | JSONError
  | UnknownValue
  | InternalError
  | NotFound
  | SharedKeysStateError
deriving DecidableEq, Repr

/-- Modelled from the spec: the exception type of the absent `FleeceException.hh`, an error
kind of the taxonomy of §6.3 with its message. -/
structure FleeceException where
  code : ErrorCode
  what : String
deriving DecidableEq, Repr

/-- Modelled from the spec: `FleeceException::_throw(code, what)` of the absent
`FleeceException.hh`; it does not return, it throws a `FleeceException` carrying `code`
(§7: a violation surfaces as an error of the given kind). -/
def FleeceException._throw {α : Type} (code : ErrorCode) (what : String) :
    Except FleeceException α :=
  .error ⟨code, what⟩

/-- Embedding of `Encoder::valueArray`: a `std::vector<Value>` with a tag, a width flag and
the keys.  `Value` and `internal::tags` are declared outside these sources and stay
parameters. -/
structure valueArray (V T : Type) where
  values : List V
  tag : T
  wide : Bool
  keys : List slice

/-- Embedding of the data members of `class Encoder`, with their default member
initialisers.  Pointers are addresses (`0` is `nullptr`); `StringTable` is declared outside
these sources and stays a parameter. -/
structure Encoder (V T S : Type) where
  _out : Writer
  _items : Nat
  _stack : List (valueArray V T)
  _stackDepth : Nat := 0
  _strings : S
  _uniqueStrings : Bool := true
  _sharedKeys : Nat := 0
  _base : slice
  _sortKeys : Bool := true
  _writingKey : Bool := false
  _blockedOnKey : Bool := false
  _numNarrow : Nat := 0
  _numWide : Nat := 0
  _narrowCount : Nat := 0
  _wideCount : Nat := 0
  _numSavedStrings : Nat := 0

/-- Members of a newly constructed `Encoder`: those the constructor sets up (it is defined in
`Encoder.cc`, outside these sources) are parameters, the option flags and the other members
hold their default member initialisers from `Encoder.hh`. -/
def Encoder.fresh {V T S : Type} (out : Writer) (items : Nat) (stack : List (valueArray V T))
    (stackDepth : Nat) (strings : S) (base : slice) : Encoder V T S :=
  { _out := out, _items := items, _stack := stack, _stackDepth := stackDepth,
    _strings := strings, _base := base }

/-- Embedding of `Encoder::uniqueStrings(bool b)`. -/
def Encoder.uniqueStrings {V T S : Type} (e : Encoder V T S) (b : Bool) : Encoder V T S :=
  { e with _uniqueStrings := b }

/-- Embedding of `Encoder::sortKeys(bool b)`. -/
def Encoder.sortKeys {V T S : Type} (e : Encoder V T S) (b : Bool) : Encoder V T S :=
  { e with _sortKeys := b }

/-- Embedding of `Encoder::setBase(slice base)`. -/
def Encoder.setBase {V T S : Type} (e : Encoder V T S) (base : slice) : Encoder V T S :=
  { e with _base := base }

/-- Embedding of `Encoder::setSharedKeys(SharedKeys *s)`. -/
def Encoder.setSharedKeys {V T S : Type} (e : Encoder V T S) (s : Nat) : Encoder V T S :=
  { e with _sharedKeys := s }

/-- Embedding of `Encoder::writeRaw(slice s)`: the encoder as the call leaves it and how the
call ends. -/
def Encoder.writeRaw {V T S : Type} (e : Encoder V T S) (_s : slice) :
    Encoder V T S × Except FleeceException Unit :=
  (e, FleeceException._throw ErrorCode.InvalidData "Cannot write raw data to Fleece encoder")

/-- The member functions of `Encoder` whose bodies are in `Encoder.hh` and touch no member
function defined elsewhere. -/
inductive EncoderCall where
  | uniqueStrings (b : Bool)
  | sortKeys (b : Bool)
  | setBase (base : slice)
  | setSharedKeys (s : Nat)
  | writeRaw (s : slice)

/-- Whether the call is `uniqueStrings` or `sortKeys`. -/
def EncoderCall.setsOption : EncoderCall → Bool
  | .uniqueStrings _ => true
  | .sortKeys _ => true
  | _ => false

/-- The encoder after one call (an exception thrown by `writeRaw` being caught). -/
def Encoder.call {V T S : Type} (e : Encoder V T S) : EncoderCall → Encoder V T S
  | .uniqueStrings b => e.uniqueStrings b
  | .sortKeys b => e.sortKeys b
  | .setBase base => e.setBase base
  | .setSharedKeys s => e.setSharedKeys s
  | .writeRaw s => (e.writeRaw s).1

/-- The encoder after a sequence of calls. -/
def Encoder.run {V T S : Type} (e : Encoder V T S) (calls : List EncoderCall) : Encoder V T S :=
  calls.foldl Encoder.call e

/-! ## `Array` (`Fleece/Array.hh`) -/

/-- Embedding of `Array::impl`: the address of the first slot, the number of items and
the width flag. -/
structure Array.impl where
  _first : Nat
  _count : Nat
  _wide : Bool
deriving DecidableEq, Repr

/-- What an accessor of an array hands back: the `const Value*` (`0` is `nullptr`) and the
addresses of the slots it passed to `Value::deref`. -/
structure Access where
  value : Nat
  derefs : List Nat
deriving DecidableEq, Repr

/-- Bytes of one slot (§3.3: 2 bytes if narrow, 4 bytes if wide). -/
def slotWidth (wide : Bool) : Nat := if wide then 4 else 2

/-- Embedding of `Array::impl::firstValue()`; `Value::deref` is declared outside these
sources and stays a parameter. -/
def Array.impl.firstValue (deref : Nat → Bool → Nat) (a : Array.impl) : Access :=
  if a._count ≠ 0 then ⟨deref a._first a._wide, [a._first]⟩ else ⟨0, []⟩

/-- Modelled from the spec: `Array::impl::operator[]` is defined in `Array.cc`, which is not
among the sources.  §4.3: `array[i]` returns the value at
`base + header_size + i · slot_width`, dereferencing a pointer slot if present; an index at or
above the count returns null. -/
def Array.impl.subscript (deref : Nat → Bool → Nat) (a : Array.impl) (index : Nat) : Access :=
  if index ≥ a._count then ⟨0, []⟩
  else ⟨deref (a._first + slotWidth a._wide * index) a._wide,
    [a._first + slotWidth a._wide * index]⟩

/-- Modelled from the spec: `Array::count()` is defined in `Array.cc`, which is not among the
sources; it is the count of the array header (§3.3), which `impl` holds in `_count`. -/
def Array.impl.count (a : Array.impl) : Nat := a._count

/-- Modelled from the spec: `Array::get(index)` is defined in `Array.cc`, which is not among
the sources; it is the random access of §4.3 on the array. -/
def Array.impl.get (deref : Nat → Bool → Nat) (a : Array.impl) (index : Nat) : Access :=
  a.subscript deref index

/-! ## `Doc` (`Fleece/Core/Doc.hh`) -/

/-- Embedding of `class Doc`, reduced to the member its accessors read: `_root`, the address
of the root value (`0` is `nullptr`). -/
structure Doc where
  _root : Nat := 0
deriving DecidableEq, Repr

/-- Embedding of `Doc::root()`. -/
def Doc.root (d : Doc) : Nat := d._root

/-- Embedding of `Doc::asDict()`; `Value::asDict` is declared outside these sources and
stays a parameter. -/
def Doc.asDict (valueAsDict : Nat → Nat) (d : Doc) : Nat :=
  if d._root ≠ 0 then valueAsDict d._root else 0

/-- Embedding of `Doc::asArray()`; `Value::asArray` is declared outside these sources and
stays a parameter. -/
def Doc.asArray (valueAsArray : Nat → Nat) (d : Doc) : Nat :=
  if d._root ≠ 0 then valueAsArray d._root else 0

/-- A sample encoder: default options over `sampleWriter`. -/
def sampleEncoder : Encoder Unit Unit Unit :=
  Encoder.fresh sampleWriter 0 [] 0 () slice.null

/-- A sample array of three narrow slots at address 100. -/
def sampleArray : Array.impl := ⟨100, 3, false⟩

/-- Two writer objects in the memory of `sampleWriter`: the object at address 1 has the
members of `sampleFresh`, the object at address 2 those of `sampleWriter`. -/
def sampleObjects : Objects :=
  { _buffer := fun p =>
      if p = 1 then sampleFresh._buffer else if p = 2 then sampleWriter._buffer else slice.null,
    _available := fun p =>
      if p = 1 then sampleFresh._available else if p = 2 then sampleWriter._available
      else slice.null,
    heap := sampleWriter.heap }

/-! ## Arithmetic of `size_t` -/

theorem SIZE_MOD_eq : SIZE_MOD = 18446744073709551616 := by
  norm_num [SIZE_MOD]

theorem size_sub_of_le {a b : Nat} (ha : a < SIZE_MOD) (hb : b ≤ a) : size_sub a b = a - b := by
  unfold size_sub
  rw [SIZE_MOD_eq] at *
  omega

theorem size_add_of_lt {a b : Nat} (h : a + b < SIZE_MOD) : size_add a b = a + b := by
  unfold size_add
  exact Nat.mod_eq_of_lt h

theorem size_mul_of_lt {a b : Nat} (h : a * b < SIZE_MOD) : size_mul a b = a * b := by
  unfold size_mul
  exact Nat.mod_eq_of_lt h

/-! ## Reading memory through a slice -/

theorem slice.bytes_length (s : slice) (h : Heap) : (s.bytes h).length = s.size := by
  simp [slice.bytes]

theorem slice.bytes_getElem? (s : slice) (h : Heap) (i : Nat) :
    (s.bytes h)[i]? = if i < s.size then some (h (s.buf + i)) else none := by
  unfold slice.bytes
  by_cases hi : i < s.size
  · simp [hi, List.getElem?_map, List.getElem?_range]
  · simp [hi, List.getElem?_map]
    omega

theorem slice.bytes_congr {p q n : Nat} {h1 h2 : Heap}
    (hagree : ∀ i, i < n → h1 (p + i) = h2 (q + i)) :
    slice.bytes ⟨p, n⟩ h1 = slice.bytes ⟨q, n⟩ h2 := by
  apply List.ext_getElem?
  intro i
  rw [slice.bytes_getElem?, slice.bytes_getElem?]
  by_cases hi : i < n
  · simp [hi, hagree i hi]
  · simp [hi]

theorem slice.bytes_add (p m n : Nat) (h : Heap) :
    slice.bytes ⟨p, m + n⟩ h = slice.bytes ⟨p, m⟩ h ++ slice.bytes ⟨p + m, n⟩ h := by
  apply List.ext_getElem?
  intro i
  rw [slice.bytes_getElem?]
  by_cases hi : i < m
  · rw [List.getElem?_append_left (by simpa [slice.bytes_length] using hi), slice.bytes_getElem?]
    have : i < m + n := by omega
    simp [hi, this]
  · rw [List.getElem?_append_right (by simpa [slice.bytes_length] using hi),
      slice.bytes_getElem?, slice.bytes_length]
    simp only []
    by_cases hi2 : i < m + n
    · have h3 : i - m < n := by omega
      have h4 : p + m + (i - m) = p + i := by omega
      simp [hi2, h3, h4]
    · have h3 : ¬ i - m < n := by omega
      simp [hi2, h3]

theorem memcpy_apply_of_lt {h : Heap} {dst : Nat} {data : List UInt8} {x : Nat} (hx : x < dst) :
    memcpy h dst data x = h x := by
  have : ¬ dst ≤ x := by omega
  simp [memcpy, this]

theorem memcpy_apply_of_ge {h : Heap} {dst : Nat} {data : List UInt8} {x : Nat}
    (hx : dst + data.length ≤ x) : memcpy h dst data x = h x := by
  unfold memcpy
  split
  · have : data.length ≤ x - dst := by omega
    simp [List.getElem?_eq_none this]
  · rfl

theorem memcpy_apply_in {h : Heap} {dst : Nat} {data : List UInt8} {i : Nat}
    (hi : i < data.length) : memcpy h dst data (dst + i) = data[i] := by
  unfold memcpy
  simp [hi]

theorem slice.bytes_memcpy_self (h : Heap) (dst : Nat) (data : List UInt8) :
    slice.bytes ⟨dst, data.length⟩ (memcpy h dst data) = data := by
  apply List.ext_getElem?
  intro i
  rw [slice.bytes_getElem?]
  by_cases hi : i < data.length
  · simp [hi, memcpy_apply_in hi]
  · simp only [hi, if_false]
    exact (List.getElem?_eq_none (by omega)).symm

theorem slice.bytes_memcpy_before {h : Heap} {p n dst : Nat} (data : List UInt8)
    (hd : p + n ≤ dst) : slice.bytes ⟨p, n⟩ (memcpy h dst data) = slice.bytes ⟨p, n⟩ h :=
  slice.bytes_congr fun _ hi => memcpy_apply_of_lt (by omega)

/-! ## The doubling loop -/

/-- The loop exits after `k` doublings with `c * 2 ^ k` when no doubling up to there wraps
around and `k` is the first exponent that reaches the target. -/
theorem growLoop_exact (fuel : Nat) : ∀ (c t k : Nat), 1 ≤ k → k ≤ fuel →
    c * 2 ^ k < SIZE_MOD → t ≤ c * 2 ^ k → (∀ j, 1 ≤ j → j < k → c * 2 ^ j < t) →
    growLoop fuel c t = some (c * 2 ^ k) := by
  induction fuel with
  | zero => intro c t k h1 h2; omega
  | succ f ih =>
    intro c t k h1 hk hlt hle hmin
    have hpow : c * 2 ^ k = c * 2 * 2 ^ (k - 1) := by
      obtain ⟨m, rfl⟩ : ∃ m, k = m + 1 := ⟨k - 1, by omega⟩
      simp [pow_succ]; ring
    have hc2 : c * 2 < SIZE_MOD := by
      have : c * 2 * 1 ≤ c * 2 * 2 ^ (k - 1) := Nat.mul_le_mul_left _ Nat.one_le_two_pow
      omega
    unfold growLoop
    simp only [size_mul_of_lt hc2]
    by_cases hk1 : k = 1
    · subst hk1
      have : ¬ (t > c * 2) := by simpa using hle
      simp [this]
    · have h2 : c * 2 < t := by simpa using hmin 1 (le_refl 1) (by omega)
      simp only [gt_iff_lt, h2, if_true]
      rw [hpow]
      apply ih (c * 2) t (k - 1) (by omega) (by omega) (by rw [← hpow]; exact hlt)
        (by rw [← hpow]; exact hle)
      intro j hj1 hj2
      have := hmin (j + 1) (by omega) (by omega)
      rw [pow_succ] at this
      calc c * 2 * 2 ^ j = c * (2 ^ j * 2) := by ring
        _ < t := this

theorem growLoop_of_noOverflow {c t : Nat} (hc : 1 ≤ c) (h : NoOverflow c t) :
    ∃ k, 1 ≤ k ∧ growLoop 64 c t = some (c * 2 ^ k) ∧ t ≤ c * 2 ^ k ∧ c * 2 ^ k < SIZE_MOD ∧
      ∀ j, 1 ≤ j → t ≤ c * 2 ^ j → k ≤ j := by
  classical
  have hex : ∃ k, 1 ≤ k ∧ t ≤ c * 2 ^ k := by
    obtain ⟨k, h1, h2, _⟩ := h
    exact ⟨k, h1, h2⟩
  obtain ⟨k0, hk01, hk0t, hk0M⟩ := h
  have hspec := Nat.find_spec hex
  have hmin : ∀ j, 1 ≤ j → t ≤ c * 2 ^ j → Nat.find hex ≤ j :=
    fun j h1 h2 => Nat.find_min' hex ⟨h1, h2⟩
  have hle0 : Nat.find hex ≤ k0 := hmin k0 hk01 hk0t
  have hM : c * 2 ^ Nat.find hex < SIZE_MOD :=
    lt_of_le_of_lt (Nat.mul_le_mul_left c (Nat.pow_le_pow_right (by norm_num) hle0)) hk0M
  have hk64 : Nat.find hex ≤ 64 := by
    by_contra hcon
    have h65 : 2 ^ 64 ≤ 2 ^ Nat.find hex := Nat.pow_le_pow_right (by norm_num) (by omega)
    have : 1 * 2 ^ Nat.find hex ≤ c * 2 ^ Nat.find hex := Nat.mul_le_mul_right _ hc
    unfold SIZE_MOD at hM
    omega
  refine ⟨Nat.find hex, hspec.1, ?_, hspec.2, hM, hmin⟩
  apply growLoop_exact 64 c t _ hspec.1 hk64 hM hspec.2
  intro j hj1 hj2
  by_contra hcon
  have := hmin j hj1 (by omega)
  omega

theorem noOverflow_of_le {c t : Nat} (hc : 1 ≤ c) (hc63 : c < 2 ^ 63) (ht : t ≤ 2 ^ 63) :
    NoOverflow c t := by
  classical
  have hex : ∃ k, 1 ≤ k ∧ t ≤ c * 2 ^ k := by
    refine ⟨63, by norm_num, ?_⟩
    have : 1 * 2 ^ 63 ≤ c * 2 ^ 63 := Nat.mul_le_mul_right _ hc
    omega
  have hspec := Nat.find_spec hex
  refine ⟨Nat.find hex, hspec.1, hspec.2, ?_⟩
  rw [SIZE_MOD_eq]
  by_cases h1 : Nat.find hex = 1
  · rw [h1]; norm_num at hc63 ⊢; omega
  · have hnot := Nat.find_min hex (show Nat.find hex - 1 < Nat.find hex by omega)
    have hlt : c * 2 ^ (Nat.find hex - 1) < t := by
      by_contra hcon
      exact hnot ⟨by omega, by omega⟩
    have hpow : c * 2 ^ Nat.find hex = c * 2 ^ (Nat.find hex - 1) * 2 := by
      obtain ⟨m, hm⟩ : ∃ m, Nat.find hex = m + 1 := ⟨Nat.find hex - 1, by omega⟩
      rw [hm]; simp [pow_succ]; ring
    rw [hpow]
    norm_num at ht
    omega

/-- The loop runs out of `fuel` exactly when none of its first `fuel` doublings reaches the
target. -/
theorem growLoop_eq_none_iff (fuel : Nat) : ∀ (c t : Nat),
    growLoop fuel c t = none ↔ ∀ j, 1 ≤ j → j ≤ fuel → (c * 2 ^ j) % SIZE_MOD < t := by
  induction fuel with
  | zero =>
    intro c t
    simp only [growLoop, true_iff]
    intro j h1 h2
    omega
  | succ f ih =>
    intro c t
    unfold growLoop
    simp only [size_mul]
    constructor
    · intro h j hj1 hj2
      by_cases hlt : t > c * 2 % SIZE_MOD
      · simp only [hlt, if_true] at h
        by_cases hj : j = 1
        · subst hj
          simpa using hlt
        · have := (ih (c * 2 % SIZE_MOD) t).1 h (j - 1) (by omega) (by omega)
          rw [Nat.mod_mul_mod] at this
          have hp : c * 2 * 2 ^ (j - 1) = c * 2 ^ j := by
            obtain ⟨m, rfl⟩ : ∃ m, j = m + 1 := ⟨j - 1, by omega⟩
            simp [pow_succ]; ring
          rwa [hp] at this
      · simp [hlt] at h
    · intro h
      have h1 : t > c * 2 % SIZE_MOD := by simpa using h 1 (le_refl 1) (by omega)
      simp only [h1, if_true]
      apply (ih (c * 2 % SIZE_MOD) t).2
      intro j hj1 hj2
      rw [Nat.mod_mul_mod]
      have := h (j + 1) (by omega) (by omega)
      have hp : c * 2 ^ (j + 1) = c * 2 * 2 ^ j := by simp [pow_succ]; ring
      rwa [hp] at this

/-- Sixty-four iterations decide the loop: if it has not exited by then, `newSize` is `0` and
below the target for good, and no amount of further iterations makes it exit. -/
theorem growLoop_fuel {c t : Nat} (h : growLoop 64 c t = none) (fuel : Nat) :
    growLoop fuel c t = none := by
  rw [growLoop_eq_none_iff] at h ⊢
  intro j hj1 _
  by_cases hj : j ≤ 64
  · exact h j hj1 hj
  · have h64 := h 64 (by norm_num) (le_refl 64)
    have hz : c * 2 ^ 64 % SIZE_MOD = 0 := by simp [SIZE_MOD]
    have hdvd : c * 2 ^ j % SIZE_MOD = 0 := by
      have : 2 ^ j = 2 ^ 64 * 2 ^ (j - 64) := by
        rw [← pow_add]; congr 1; omega
      rw [this, ← Nat.mul_assoc, Nat.mul_mod, hz]
      simp
    omega

/-- A loop that exits does so whatever larger bound is put on its iterations. -/
theorem growLoop_mono (fuel : Nat) : ∀ (c t v : Nat), growLoop fuel c t = some v →
    ∀ extra, growLoop (fuel + extra) c t = some v := by
  induction fuel with
  | zero => intro c t v h; simp [growLoop] at h
  | succ f ih =>
    intro c t v h extra
    have hf : f + 1 + extra = (f + extra) + 1 := by omega
    rw [hf]
    unfold growLoop at h ⊢
    by_cases hlt : t > size_mul c 2
    · simp only [hlt, if_true] at h ⊢
      exact ih _ _ _ h extra
    · simp only [hlt, if_false] at h ⊢
      exact h

/-! ## State lemmas -/

theorem realloc_apply_copied {h : Heap} {old oldSize newSize i : Nat} {a : Allocation}
    (ha : a.ptr ≠ 0) (h1 : i < oldSize) (h2 : i < newSize) :
    realloc h old oldSize newSize a (a.ptr + i) = h (old + i) := by
  unfold realloc
  have h3 : a.ptr ≤ a.ptr + i ∧ a.ptr + i < a.ptr + newSize := ⟨by omega, by omega⟩
  have h4 : a.ptr + i - a.ptr = i := by omega
  have h5 : i < min oldSize newSize := by simp [h1, h2]
  simp only [ha, if_false, h3, and_self, if_true, h4, h5]

theorem Writer.Valid.length_eq {w : Writer} (hv : w.Valid) :
    w.length = w._buffer.size - w._available.size := by
  obtain ⟨h1, h2, _⟩ := hv
  unfold Writer.length
  exact size_sub_of_le h1 h2

theorem Writer.Valid.length_lt {w : Writer} (hv : w.Valid) : w.length < SIZE_MOD := by
  have := hv.length_eq
  obtain ⟨h1, h2, _⟩ := hv
  omega

/-- What a successful `growToFit` leaves behind when no doubling wraps around. -/
theorem Writer.growToFit_ok {w : Writer} {amount : Nat} {a : Allocation} (hv : w.Valid)
    (ha : a.ptr ≠ 0)
    (hno : NoOverflow (if w._buffer.size ≠ 0 then w._buffer.size else 128)
      (w.length + amount)) :
    ∃ k w1, 1 ≤ k ∧ w.growToFit amount a = .ok w1 ∧
      w1._buffer = ⟨a.ptr, (if w._buffer.size ≠ 0 then w._buffer.size else 128) * 2 ^ k⟩ ∧
      w.length + amount ≤ w1._buffer.size ∧
      (∀ j, 1 ≤ j →
        w.length + amount ≤ (if w._buffer.size ≠ 0 then w._buffer.size else 128) * 2 ^ j →
        k ≤ j) ∧
      w1.Valid ∧ w1.length = w.length ∧ w1.outputBytes = w.outputBytes ∧
      amount ≤ w1._available.size := by
  have hc : 1 ≤ (if w._buffer.size ≠ 0 then w._buffer.size else 128) := by
    split <;> omega
  obtain ⟨k, hk1, hloop, hle, hM, hmin⟩ := growLoop_of_noOverflow hc hno
  have hlen := hv.length_eq
  obtain ⟨hv1, hv2, hv3⟩ := hv
  have hadd : size_add w.length amount = w.length + amount := size_add_of_lt (by omega)
  have hsub : size_sub ((if w._buffer.size ≠ 0 then w._buffer.size else 128) * 2 ^ k) w.length
      = (if w._buffer.size ≠ 0 then w._buffer.size else 128) * 2 ^ k - w.length :=
    size_sub_of_le hM (by omega)
  refine ⟨k, ⟨⟨a.ptr, (if w._buffer.size ≠ 0 then w._buffer.size else 128) * 2 ^ k⟩,
    slice.moveStart ⟨a.ptr, (if w._buffer.size ≠ 0 then w._buffer.size else 128) * 2 ^ k⟩
      w.length,
    realloc w.heap w._buffer.buf w._buffer.size
      ((if w._buffer.size ≠ 0 then w._buffer.size else 128) * 2 ^ k) a⟩,
    hk1, ?_, rfl, hle, hmin, ?_, ?_, ?_, ?_⟩
  · unfold Writer.growToFit
    simp only [hadd, Writer.kDefaultInitialCapacity, Nat.reduceDiv, hloop, ha, if_false]
  · refine ⟨hM, ?_, ?_⟩
    · simp only [slice.moveStart, hsub]; omega
    · simp only [slice.moveStart, hsub]; omega
  · simp only [Writer.length, slice.moveStart]
    rw [← Writer.length, hsub, size_sub_of_le hM (by omega)]
    omega
  · simp only [Writer.outputBytes, Writer.output, Writer.length, slice.moveStart]
    rw [← Writer.length, hsub, size_sub_of_le hM (by omega)]
    have : (if w._buffer.size ≠ 0 then w._buffer.size else 128) * 2 ^ k
        - ((if w._buffer.size ≠ 0 then w._buffer.size else 128) * 2 ^ k - w.length)
        = w.length := by omega
    rw [this]
    exact slice.bytes_congr fun i hi => realloc_apply_copied ha (by omega) (by omega)
  · simp only [slice.moveStart, hsub]; omega

/-- The capacity check shared by `write` and `reserveSpace`: within the non-wrapping range and
with a successful allocation (if one is needed) it returns a state with room for `n` bytes
and the same written content. -/
theorem Writer.ensure_ok {w : Writer} {n : Nat} {a : Allocation} (hv : w.Valid)
    (ha : w._available.size < n → a.ptr ≠ 0) (hn : w.length + n ≤ 2 ^ 63) :
    ∃ w1, (if w._available.size < n then w.growToFit n a else .ok w) = .ok w1 ∧
      w1.Valid ∧ w1.length = w.length ∧ w1.outputBytes = w.outputBytes ∧
      n ≤ w1._available.size := by
  by_cases hfit : w._available.size < n
  · have hlen := hv.length_eq
    have hno : NoOverflow (if w._buffer.size ≠ 0 then w._buffer.size else 128)
        (w.length + n) := by
      apply noOverflow_of_le _ _ hn
      · split <;> omega
      · have := hv.2.1
        norm_num at hn ⊢
        split <;> omega
    obtain ⟨k, w1, _, hg, _, _, _, h1, h2, h3, h4⟩ := Writer.growToFit_ok hv (ha hfit) hno
    exact ⟨w1, by simp [hfit, hg], h1, h2, h3, h4⟩
  · exact ⟨w, by simp [hfit], hv, rfl, rfl, by omega⟩

/-- Appending `data` at `_available` of a valid state with room for it. -/
theorem Writer.append_spec {w : Writer} {data : List UInt8} (hv : w.Valid)
    (hroom : data.length ≤ w._available.size) :
    ({ w with heap := memcpy w.heap w._available.buf data,
              _available := w._available.moveStart data.length } : Writer).Valid ∧
    ({ w with heap := memcpy w.heap w._available.buf data,
              _available := w._available.moveStart data.length } : Writer).length
      = w.length + data.length ∧
    ({ w with heap := memcpy w.heap w._available.buf data,
              _available := w._available.moveStart data.length } : Writer).outputBytes
      = w.outputBytes ++ data := by
  have hlen := hv.length_eq
  obtain ⟨hv1, hv2, hv3⟩ := hv
  have hsub : size_sub w._available.size data.length = w._available.size - data.length :=
    size_sub_of_le (by omega) hroom
  have hlen2 : size_sub w._buffer.size (w._available.size - data.length)
      = w.length + data.length := by
    rw [size_sub_of_le hv1 (by omega)]; omega
  refine ⟨⟨hv1, ?_, ?_⟩, ?_, ?_⟩
  · simp only [slice.moveStart, hsub]; omega
  · simp only [slice.moveStart, hsub]; omega
  · simp only [Writer.length, slice.moveStart, hsub]
    rw [← Writer.length, hlen2]
  · simp only [Writer.outputBytes, Writer.output, Writer.length, slice.moveStart, hsub]
    rw [← Writer.length, hlen2, slice.bytes_add, hv3, ← hlen, slice.bytes_memcpy_self,
      slice.bytes_memcpy_before data (le_refl _)]

theorem Writer.reserve_spec {w : Writer} {n : Nat} (hv : w.Valid)
    (hroom : n ≤ w._available.size) :
    ({ w with _available := w._available.moveStart n } : Writer).Valid ∧
    ({ w with _available := w._available.moveStart n } : Writer).length = w.length + n ∧
    ({ w with _available := w._available.moveStart n } : Writer).outputBytes
      = w.outputBytes ++ slice.bytes ⟨w._available.buf, n⟩ w.heap := by
  have hlen := hv.length_eq
  obtain ⟨hv1, hv2, hv3⟩ := hv
  have hsub : size_sub w._available.size n = w._available.size - n :=
    size_sub_of_le (by omega) hroom
  have hlen2 : size_sub w._buffer.size (w._available.size - n) = w.length + n := by
    rw [size_sub_of_le hv1 (by omega)]; omega
  refine ⟨⟨hv1, ?_, ?_⟩, ?_, ?_⟩
  · simp only [slice.moveStart, hsub]; omega
  · simp only [slice.moveStart, hsub]; omega
  · simp only [Writer.length, slice.moveStart, hsub]
    rw [← Writer.length, hlen2]
  · simp only [Writer.outputBytes, Writer.output, Writer.length, slice.moveStart, hsub]
    rw [← Writer.length, hlen2, slice.bytes_add, hv3, ← hlen]

/-- The full effect of `write` within the non-wrapping range. -/
theorem Writer.write_ok {w : Writer} {d : List UInt8} {a : Allocation} (hv : w.Valid)
    (ha : w._available.size < d.length → a.ptr ≠ 0) (hn : w.length + d.length ≤ 2 ^ 63) :
    ∃ w1, w.write d a = .ok w1 ∧ w1.Valid ∧ w1.length = w.length + d.length ∧
      w1.outputBytes = w.outputBytes ++ d := by
  obtain ⟨w1, he, hv1, hl1, ho1, hroom⟩ := Writer.ensure_ok hv ha hn
  obtain ⟨h1, h2, h3⟩ := Writer.append_spec hv1 hroom
  refine ⟨_, ?_, h1, by rw [h2, hl1], by rw [h3, ho1]⟩
  unfold Writer.write
  simp only [he]

/-- The full effect of `reserveSpace` within the non-wrapping range. -/
theorem Writer.reserveSpace_ok {w : Writer} {n : Nat} {a : Allocation} (hv : w.Valid)
    (ha : w._available.size < n → a.ptr ≠ 0) (hn : w.length + n ≤ 2 ^ 63) :
    ∃ w1, w.reserveSpace n a = .ok (w.length, w1) ∧ w1.Valid ∧ w1.length = w.length + n ∧
      w1.outputBytes.take w.length = w.outputBytes ∧
      w1._buffer.buf + w.length + n ≤ w1._buffer.buf + w1._buffer.size := by
  obtain ⟨w1, he, hv1, hl1, ho1, hroom⟩ := Writer.ensure_ok hv ha hn
  obtain ⟨h1, h2, h3⟩ := Writer.reserve_spec hv1 hroom
  have hlenEq := hv1.length_eq
  have := hv1.2.1
  refine ⟨_, ?_, h1, by rw [h2, hl1], ?_, ?_⟩
  · unfold Writer.reserveSpace
    simp only [he]
  · rw [h3, ho1]
    exact List.take_left' (by simp [Writer.outputBytes, slice.bytes_length, Writer.output])
  · simp only []
    omega

theorem Writer.length_null (h : Heap) : (⟨slice.null, slice.null, h⟩ : Writer).length = 0 := by
  simp [Writer.length, size_sub, slice.null, SIZE_MOD_eq]

theorem Writer.outputBytes_null (h : Heap) :
    (⟨slice.null, slice.null, h⟩ : Writer).outputBytes = [] := by
  simp [Writer.outputBytes, Writer.output, Writer.length_null, slice.bytes]

theorem Writer.new_ok {h : Heap} {c : Nat} {a : Allocation} (ha : a.ptr ≠ 0)
    (hc : c < SIZE_MOD) :
    ∃ w, Writer.new h c a = .ok w ∧ w.Valid ∧ w.length = 0 ∧ w.outputBytes = [] ∧
      w._buffer.size = c ∧ w._available.size = c := by
  have hl : size_sub c c = 0 := by rw [size_sub_of_le hc (le_refl c)]; omega
  refine ⟨⟨⟨a.ptr, c⟩, ⟨a.ptr, c⟩, malloc h c a⟩, ?_, ⟨hc, le_refl c, by simp⟩, hl, ?_, rfl,
    rfl⟩
  · unfold Writer.new
    simp only [ha, if_false]
  · simp only [Writer.outputBytes, Writer.output, Writer.length, hl]
    rfl

theorem Writer.call_eq_write (w : Writer) (c : Call) (a : Allocation) :
    w.call c a = w.write c.bytes a := by
  cases c <;> rfl

theorem Writer.run_ok (calls : List (Call × Allocation)) : ∀ (w : Writer), w.Valid →
    (∀ x ∈ calls, x.2.ptr ≠ 0) →
    w.length + ((calls.map fun x => x.1.bytes).flatten).length ≤ 2 ^ 63 →
    ∃ w1, w.run calls = .ok w1 ∧ w1.Valid ∧
      w1.outputBytes = w.outputBytes ++ (calls.map fun x => x.1.bytes).flatten := by
  induction calls with
  | nil => intro w hv _ _; exact ⟨w, rfl, hv, by simp⟩
  | cons x rest ih =>
    intro w hv ha hn
    simp only [List.map_cons, List.flatten_cons, List.length_append] at hn
    obtain ⟨w1, hw, hv1, hl1, ho1⟩ :=
      Writer.write_ok (d := x.1.bytes) hv (fun _ => ha x (List.mem_cons_self _ _)) (by omega)
    obtain ⟨w2, hr, hv2, ho2⟩ :=
      ih w1 hv1 (fun y hy => ha y (List.mem_cons_of_mem _ hy)) (by rw [hl1]; omega)
    refine ⟨w2, ?_, hv2, ?_⟩
    · obtain ⟨c, a⟩ := x
      simp only [Writer.run, Writer.call_eq_write]
      simp only [] at hw
      simp only [hw, hr]
    · rw [ho2, ho1]
      simp

/-- Effect of a `rewrite` whose range lies inside the written bytes. -/
theorem Writer.rewrite_ok (w : Writer) (pos : Nat) (d : List UInt8)
    (hfit : pos + d.length ≤ w.length) :
    ∃ w1, w.rewrite pos d = .ok w1 ∧ w1.length = w.length ∧
      w1._buffer = w._buffer ∧ w1._available = w._available ∧
      (w1.outputBytes.drop pos).take d.length = d ∧
      w1.outputBytes.length = w.outputBytes.length ∧
      ∀ i, i < pos ∨ pos + d.length ≤ i → w1.outputBytes[i]? = w.outputBytes[i]? := by
  have hlt : w.length < SIZE_MOD := by
    unfold Writer.length size_sub
    exact Nat.mod_lt _ (by rw [SIZE_MOD_eq]; norm_num)
  have hadd : size_add pos d.length = pos + d.length := size_add_of_lt (by omega)
  refine ⟨{ w with heap := memcpy w.heap (w._buffer.buf + pos) d }, ?_, rfl, rfl, rfl, ?_, ?_, ?_⟩
  · unfold Writer.rewrite
    simp only [hadd, hfit, if_true]
  · apply List.ext_getElem?
    intro i
    rw [List.getElem?_take, List.getElem?_drop]
    simp only [Writer.outputBytes, Writer.output]
    rw [slice.bytes_getElem?]
    by_cases hi : i < d.length
    · have h1 : pos + i < w.length := by omega
      have h2 : w._buffer.buf + (pos + i) = w._buffer.buf + pos + i := by omega
      have h3 : pos + i < ({ w with heap := memcpy w.heap (w._buffer.buf + pos) d } :
          Writer).length := h1
      simp only [hi, h3, if_true, h2, memcpy_apply_in hi]
      exact (List.getElem?_eq_getElem hi).symm
    · simp only [hi, if_false]
      exact (List.getElem?_eq_none (by omega)).symm
  · simp only [Writer.outputBytes, slice.bytes_length, Writer.output]
    rfl
  · intro i hi
    simp only [Writer.outputBytes, Writer.output]
    rw [slice.bytes_getElem?, slice.bytes_getElem?]
    have hmem : memcpy w.heap (w._buffer.buf + pos) d (w._buffer.buf + i)
        = w.heap (w._buffer.buf + i) := by
      rcases hi with hi | hi
      · exact memcpy_apply_of_lt (by omega)
      · exact memcpy_apply_of_ge (by omega)
    have hl : ({ w with heap := memcpy w.heap (w._buffer.buf + pos) d } : Writer).length
        = w.length := rfl
    simp only [hl, hmem]

/-- A `write` that fits never asks the allocator: whatever it would answer, the call returns
and `_buffer` is untouched. -/
theorem Writer.write_fits {w : Writer} {d : List UInt8} (a : Allocation) (hv : w.Valid)
    (hroom : d.length ≤ w._available.size) :
    ∃ w1, w.write d a = .ok w1 ∧ w1._buffer = w._buffer ∧
      w1._available = w._available.moveStart d.length ∧
      w1._available.size = w._available.size - d.length ∧ w1.Valid ∧
      w1.length = w.length + d.length ∧ w1.outputBytes = w.outputBytes ++ d := by
  obtain ⟨h1, h2, h3⟩ := Writer.append_spec hv hroom
  have hnot : ¬ w._available.size < d.length := by omega
  refine ⟨{ w with heap := memcpy w.heap w._available.buf d,
                    _available := w._available.moveStart d.length },
    ?_, rfl, rfl, ?_, h1, h2, h3⟩
  · unfold Writer.write
    simp only [hnot, if_false]
  · simp only [slice.moveStart]
    exact size_sub_of_le (by have := hv.1; have := hv.2.1; omega) hroom

/-- Calls that fit in the room left never ask the allocator. -/
theorem Writer.run_fits (calls : List (Call × Allocation)) : ∀ (w : Writer), w.Valid →
    ((calls.map fun x => x.1.bytes).flatten).length ≤ w._available.size →
    ∃ w1, w.run calls = .ok w1 ∧ w1._buffer = w._buffer ∧ w1.Valid ∧
      w1._available.size
        = w._available.size - ((calls.map fun x => x.1.bytes).flatten).length := by
  induction calls with
  | nil => intro w hv _; exact ⟨w, rfl, rfl, hv, by simp⟩
  | cons x rest ih =>
    intro w hv hn
    simp only [List.map_cons, List.flatten_cons, List.length_append] at hn ⊢
    obtain ⟨w1, hw, hb1, _, hs1, hv1, _, _⟩ :=
      Writer.write_fits (d := x.1.bytes) x.2 hv (by omega)
    obtain ⟨w2, hr, hb2, hv2, hs2⟩ := ih w1 hv1 (by rw [hs1]; omega)
    refine ⟨w2, ?_, by rw [hb2, hb1], hv2, by rw [hs2, hs1]; omega⟩
    obtain ⟨c, a⟩ := x
    simp only [Writer.run, Writer.call_eq_write]
    simp only [] at hw
    simp only [hw, hr]

/-- Without a block from the allocator `growToFit` does not return. -/
theorem Writer.growToFit_null (w : Writer) (n : Nat) {a : Allocation} (ha : a.ptr = 0)
    (w1 : Writer) : w.growToFit n a ≠ .ok w1 := by
  unfold Writer.growToFit
  simp only []
  split
  · simp
  · simp [ha]

/-- A `write` that does not fit cannot return without a block from the allocator. -/
theorem Writer.write_null {w : Writer} {d : List UInt8} {a : Allocation} (ha : a.ptr = 0)
    (hgrow : w._available.size < d.length) (w1 : Writer) : w.write d a ≠ .ok w1 := by
  unfold Writer.write
  simp only [hgrow, if_true]
  cases hg : w.growToFit d.length a with
  | error e => simp
  | ok g => exact absurd hg (Writer.growToFit_null w d.length ha g)

/-- A `write` that has to grow, within the non-wrapping range: the new `_buffer` is the block
the allocator handed out, of size `c * 2 ^ k`. -/
theorem Writer.write_grow_ok {w : Writer} {d : List UInt8} {a : Allocation} (hv : w.Valid)
    (hgrow : w._available.size < d.length) (ha : a.ptr ≠ 0)
    (hno : NoOverflow (if w._buffer.size ≠ 0 then w._buffer.size else 128)
      (w.length + d.length)) :
    ∃ k w1, 1 ≤ k ∧ w.write d a = .ok w1 ∧
      w1._buffer = ⟨a.ptr, (if w._buffer.size ≠ 0 then w._buffer.size else 128) * 2 ^ k⟩ ∧
      w1.Valid ∧ w1.length = w.length + d.length ∧ w1.outputBytes = w.outputBytes ++ d := by
  obtain ⟨k, g, hk, hg, hbuf, _, _, hvg, hlg, hog, hroom⟩ := Writer.growToFit_ok hv ha hno
  obtain ⟨h1, h2, h3⟩ := Writer.append_spec hvg hroom
  refine ⟨k, { g with heap := memcpy g.heap g._available.buf d,
                      _available := g._available.moveStart d.length },
    hk, ?_, hbuf, h1, by rw [h2, hlg], by rw [h3, hog]⟩
  unfold Writer.write
  simp only [hgrow, if_true, hg]

/-- A `reserveSpace` that has to grow, within the non-wrapping range. -/
theorem Writer.reserveSpace_grow_ok {w : Writer} {n : Nat} {a : Allocation} (hv : w.Valid)
    (hgrow : w._available.size < n) (ha : a.ptr ≠ 0)
    (hno : NoOverflow (if w._buffer.size ≠ 0 then w._buffer.size else 128) (w.length + n)) :
    ∃ k w1, 1 ≤ k ∧ w.reserveSpace n a = .ok (w.length, w1) ∧
      w1._buffer = ⟨a.ptr, (if w._buffer.size ≠ 0 then w._buffer.size else 128) * 2 ^ k⟩ ∧
      w1.Valid ∧ w1.length = w.length + n := by
  obtain ⟨k, g, hk, hg, hbuf, _, _, hvg, hlg, _, hroom⟩ := Writer.growToFit_ok hv ha hno
  obtain ⟨h1, h2, _⟩ := Writer.reserve_spec hvg hroom
  refine ⟨k, { g with _available := g._available.moveStart n }, hk, ?_, hbuf, h1,
    by rw [h2, hlg]⟩
  unfold Writer.reserveSpace
  simp only [hgrow, if_true, hg]

/-- A `reserveSpace` that fits never asks the allocator. -/
theorem Writer.reserveSpace_fits {w : Writer} {n : Nat} (a : Allocation) (hv : w.Valid)
    (hroom : n ≤ w._available.size) :
    ∃ w1, w.reserveSpace n a = .ok (w.length, w1) ∧ w1._buffer = w._buffer ∧
      w1._available = w._available.moveStart n ∧
      w1._available.size = w._available.size - n ∧ w1.heap = w.heap := by
  have hnot : ¬ w._available.size < n := by omega
  refine ⟨{ w with _available := w._available.moveStart n }, ?_, rfl, rfl, ?_, rfl⟩
  · unfold Writer.reserveSpace
    simp only [hnot, if_false]
  · simp only [slice.moveStart]
    exact size_sub_of_le (by have := hv.1; have := hv.2.1; omega) hroom

/-- The doubled size differs from the size the doubling started from. -/
theorem doubled_ne {c k : Nat} (hk : 1 ≤ k) :
    (if c ≠ 0 then c else 128) * 2 ^ k ≠ c := by
  have h2k : 2 ^ 1 ≤ 2 ^ k := Nat.pow_le_pow_right (by norm_num) hk
  by_cases hc : c = 0
  · subst hc
    have : 128 * 2 ^ 1 ≤ 128 * 2 ^ k := Nat.mul_le_mul_left _ h2k
    simp only [ne_eq, not_true_eq_false, if_false]
    omega
  · have : c * 2 ^ 1 ≤ c * 2 ^ k := Nat.mul_le_mul_left _ h2k
    simp only [ne_eq, hc, not_false_eq_true, if_true]
    omega

/-- The output after a `rewrite` inside the written bytes, as a list: the old output with
`d` spliced in at `pos`. -/
theorem Writer.rewrite_output (w : Writer) (pos : Nat) (d : List UInt8)
    (hfit : pos + d.length ≤ w.length) :
    ∃ w1, w.rewrite pos d = .ok w1 ∧ w1.length = w.length ∧ w1._buffer = w._buffer ∧
      w1._available = w._available ∧
      w1.outputBytes = w.outputBytes.take pos ++ d ++ w.outputBytes.drop (pos + d.length) := by
  obtain ⟨w1, hrw, hl, hb, hav, hpatch, _, hframe⟩ := Writer.rewrite_ok w pos d hfit
  refine ⟨w1, hrw, hl, hb, hav, ?_⟩
  have htake : w1.outputBytes.take pos = w.outputBytes.take pos := by
    apply List.ext_getElem?
    intro i
    rw [List.getElem?_take, List.getElem?_take]
    by_cases hi : i < pos
    · simp only [hi, if_true]
      exact hframe i (Or.inl hi)
    · simp only [hi, if_false]
  have hdrop : (w1.outputBytes.drop pos).drop d.length
      = w.outputBytes.drop (pos + d.length) := by
    apply List.ext_getElem?
    intro i
    rw [List.getElem?_drop, List.getElem?_drop, List.getElem?_drop]
    have := hframe (pos + (d.length + i)) (Or.inr (by omega))
    rw [this]
    congr 1
    omega
  calc w1.outputBytes
      = w1.outputBytes.take pos ++ w1.outputBytes.drop pos := (List.take_append_drop _ _).symm
    _ = w1.outputBytes.take pos
          ++ ((w1.outputBytes.drop pos).take d.length
            ++ (w1.outputBytes.drop pos).drop d.length) := by
        rw [List.take_append_drop d.length]
    _ = w.outputBytes.take pos ++ d ++ w.outputBytes.drop (pos + d.length) := by
        rw [htake, hpatch, hdrop, List.append_assoc]

theorem Writer.Valid.of_slices {w w1 : Writer} (hv : w.Valid) (hb : w1._buffer = w._buffer)
    (ha : w1._available = w._available) : w1.Valid := by
  unfold Writer.Valid at hv ⊢
  rw [hb, ha]
  exact hv

theorem Writer.length_of_slices {w w1 : Writer} (hb : w1._buffer = w._buffer)
    (ha : w1._available = w._available) : w1.length = w.length := by
  unfold Writer.length
  rw [hb, ha]

/-! ## The state-keeping embeddings agree with the plain ones -/

theorem Writer.growToFit_eq_ended (w : Writer) (n : Nat) (a : Allocation) :
    w.growToFit n a = (match (w.growToFit_ended n a).result with
      | .ok _ => .ok (w.growToFit_ended n a).writer
      | .error e => .error e) := by
  unfold Writer.growToFit Writer.growToFit_ended
  simp only []
  cases growLoop 64 (if w._buffer.size ≠ 0 then w._buffer.size
      else Writer.kDefaultInitialCapacity / 2) (size_add w.length n) with
  | none => rfl
  | some v =>
    by_cases ha : a.ptr = 0
    · simp only [ha, if_true]
    · simp only [ha, if_false]

theorem Writer.write_eq_ended (w : Writer) (d : List UInt8) (a : Allocation) :
    w.write d a = (match (w.write_ended d a).result with
      | .ok _ => .ok (w.write_ended d a).writer
      | .error e => .error e) := by
  unfold Writer.write Writer.write_ended
  by_cases hfit : w._available.size < d.length
  · simp only [hfit, if_true]
    rw [Writer.growToFit_eq_ended]
    cases hres : (w.growToFit_ended d.length a).result with
    | error e => simp only [hres]
    | ok u => simp only [hres]
  · simp only [hfit, if_false]

theorem Writer.reserveSpace_eq_ended (w : Writer) (n : Nat) (a : Allocation) :
    w.reserveSpace n a = (match (w.reserveSpace_ended n a).result with
      | .ok pos => .ok (pos, (w.reserveSpace_ended n a).writer)
      | .error e => .error e) := by
  unfold Writer.reserveSpace Writer.reserveSpace_ended
  by_cases hfit : w._available.size < n
  · simp only [hfit, if_true]
    rw [Writer.growToFit_eq_ended]
    cases hres : (w.growToFit_ended n a).result with
    | error e => simp only [hres]
    | ok u => simp only [hres]
  · simp only [hfit, if_false]

/-! ## The capacity invariant -/

theorem growLoop_some_bounds (fuel : Nat) : ∀ (c t v : Nat), growLoop fuel c t = some v →
    t ≤ v ∧ v < SIZE_MOD := by
  induction fuel with
  | zero => intro c t v h; simp [growLoop] at h
  | succ f ih =>
    intro c t v h
    unfold growLoop at h
    by_cases hlt : t > size_mul c 2
    · simp only [hlt, if_true] at h
      exact ih _ _ _ h
    · simp only [hlt, if_false, Option.some.injEq] at h
      subst h
      refine ⟨by omega, ?_⟩
      unfold size_mul
      exact Nat.mod_lt _ (by rw [SIZE_MOD_eq]; norm_num)

/-- The size of `_available` after `moveStart(len)` and `moveStart(n)` on a fresh block of
`v` bytes, when the loop exit test `len + n <= v` held in `size_t` arithmetic. -/
theorem size_sub_sub (v len n : Nat) (hv : v < SIZE_MOD) (hexit : size_add len n ≤ v) :
    size_sub (size_sub v len) n = v - size_add len n := by
  unfold size_sub size_add at *
  rw [SIZE_MOD_eq] at *
  omega

theorem Writer.growToFit_shape {w g : Writer} {n : Nat} {a : Allocation}
    (h : w.growToFit n a = .ok g) :
    ∃ v, size_add w.length n ≤ v ∧ v < SIZE_MOD ∧
      g._buffer = ⟨a.ptr, v⟩ ∧ g._available = ⟨a.ptr + w.length, size_sub v w.length⟩ := by
  unfold Writer.growToFit at h
  simp only [] at h
  cases hl : growLoop 64 (if w._buffer.size ≠ 0 then w._buffer.size
      else Writer.kDefaultInitialCapacity / 2) (size_add w.length n) with
  | none =>
    rw [hl] at h
    cases h
  | some v =>
    obtain ⟨hb1, hb2⟩ := growLoop_some_bounds _ _ _ _ hl
    rw [hl] at h
    by_cases ha : a.ptr = 0
    · simp only [ha, if_true] at h
      cases h
    · simp only [ha, if_false, Except.ok.injEq] at h
      subst h
      exact ⟨v, hb1, hb2, rfl, rfl⟩

theorem Writer.length_is_size_t (w : Writer) : w.length < SIZE_MOD := by
  unfold Writer.length size_sub
  exact Nat.mod_lt _ (by rw [SIZE_MOD_eq]; norm_num)

/-- Moving the start of `_available` by `n` after the capacity check keeps the invariant,
whether the check grew the buffer or not and whatever `size_t` value `n` is. -/
theorem Writer.CapacityInv.advance {w : Writer} (hinv : w.CapacityInv) (n : Nat)
    (a : Allocation) {g : Writer}
    (hg : (if w._available.size < n then w.growToFit n a else .ok w) = .ok g) (hp : Heap) :
    ({ g with heap := hp, _available := g._available.moveStart n } : Writer).CapacityInv := by
  obtain ⟨h1, h2, h3⟩ := hinv
  by_cases hfit : w._available.size < n
  · simp only [hfit, if_true] at hg
    obtain ⟨v, hexit, hv, hb, hav⟩ := Writer.growToFit_shape hg
    have hss := size_sub_sub v w.length n hv hexit
    refine ⟨by simp only [hb]; exact hv, ?_, ?_⟩
    · simp only [hb, hav, slice.moveStart, hss]
      omega
    · simp only [hb, hav, slice.moveStart, hss]
      unfold size_add at hexit ⊢
      rw [SIZE_MOD_eq] at *
      omega
  · simp only [hfit, if_false, Except.ok.injEq] at hg
    subst hg
    have hs : size_sub w._available.size n = w._available.size - n :=
      size_sub_of_le (by omega) (by omega)
    refine ⟨h1, ?_, ?_⟩
    · simp only [slice.moveStart, hs]
      omega
    · simp only [slice.moveStart, hs]
      have : w._available.buf + n + (w._available.size - n)
          = w._available.buf + w._available.size := by omega
      rw [this]
      exact h3

theorem Writer.CapacityInv.write {w w1 : Writer} {d : List UInt8} {a : Allocation}
    (hinv : w.CapacityInv) (h : w.write d a = .ok w1) : w1.CapacityInv := by
  unfold Writer.write at h
  simp only [] at h
  cases hg : (if w._available.size < d.length then w.growToFit d.length a else .ok w) with
  | error e => simp [hg] at h
  | ok g =>
    simp only [hg, Except.ok.injEq] at h
    subst h
    exact hinv.advance d.length a hg _

theorem Writer.CapacityInv.reserveSpace {w w1 : Writer} {n pos : Nat} {a : Allocation}
    (hinv : w.CapacityInv) (h : w.reserveSpace n a = .ok (pos, w1)) : w1.CapacityInv := by
  unfold Writer.reserveSpace at h
  simp only [] at h
  cases hg : (if w._available.size < n then w.growToFit n a else .ok w) with
  | error e => simp [hg] at h
  | ok g =>
    simp only [hg, Except.ok.injEq, Prod.mk.injEq] at h
    obtain ⟨_, h⟩ := h
    subst h
    exact hinv.advance n a hg g.heap

theorem Writer.CapacityInv.rewrite {w w1 : Writer} {pos : Nat} {d : List UInt8}
    (hinv : w.CapacityInv) (h : w.rewrite pos d = .ok w1) : w1.CapacityInv := by
  unfold Writer.rewrite at h
  by_cases hc : size_add pos d.length ≤ w.length
  · simp only [hc, if_true, Except.ok.injEq] at h
    subst h
    exact hinv
  · simp [hc] at h

theorem Writer.CapacityInv.extractOutput {w w1 : Writer} {s : slice} {a : Allocation}
    (h : w.extractOutput a = .ok (s, w1)) : w1.CapacityInv := by
  unfold Writer.extractOutput at h
  simp only [Except.ok.injEq, Prod.mk.injEq] at h
  obtain ⟨_, h⟩ := h
  subst h
  exact ⟨by simp [slice.null, SIZE_MOD_eq], le_refl _, rfl⟩

theorem Writer.CapacityInv.new {h : Heap} {c : Nat} {a : Allocation} {w : Writer}
    (hc : c < SIZE_MOD) (hnew : Writer.new h c a = .ok w) : w.CapacityInv := by
  unfold Writer.new at hnew
  by_cases ha : a.ptr = 0
  · simp [ha] at hnew
  · simp only [ha, if_false, Except.ok.injEq] at hnew
    subst hnew
    exact ⟨hc, le_refl _, rfl⟩

theorem Writer.Reachable.capacityInv {w : Writer} (hr : w.Reachable) : w.CapacityInv := by
  induction hr with
  | ctor h c a w hc hnew => exact Writer.CapacityInv.new hc hnew
  | write w d a w1 _ _ hw ih => exact ih.write hw
  | reserveSpace w n a pos w1 _ _ hres ih => exact ih.reserveSpace hres
  | rewrite w pos d w1 _ hrw ih => exact ih.rewrite hrw
  | extractOutput w a s w1 _ hex _ => exact Writer.CapacityInv.extractOutput hex

/-! ## Encoder options -/

theorem Encoder.call_flags {V T S : Type} (e : Encoder V T S) (c : EncoderCall)
    (hc : c.setsOption = false) :
    (e.call c)._uniqueStrings = e._uniqueStrings ∧ (e.call c)._sortKeys = e._sortKeys := by
  cases c <;> first | exact ⟨rfl, rfl⟩ | simp [EncoderCall.setsOption] at hc

theorem Encoder.run_flags {V T S : Type} (calls : List EncoderCall) :
    ∀ (e : Encoder V T S), (∀ c ∈ calls, c.setsOption = false) →
    (e.run calls)._uniqueStrings = e._uniqueStrings ∧ (e.run calls)._sortKeys = e._sortKeys := by
  induction calls with
  | nil => intro e _; exact ⟨rfl, rfl⟩
  | cons c rest ih =>
    intro e h
    obtain ⟨h1, h2⟩ := e.call_flags c (h c (List.mem_cons_self _ _))
    obtain ⟨h3, h4⟩ := ih (e.call c) (fun x hx => h x (List.mem_cons_of_mem _ hx))
    simp only [Encoder.run, List.foldl_cons] at h3 h4 ⊢
    exact ⟨by rw [h3, h1], by rw [h4, h2]⟩

/-! ## The claims -/

/-- C1: for every valid writer state and every byte sequence `d` (sizes within the
non-wrapping range `length() + |d| ≤ 2^63`) whose allocation, if one is needed, succeeds,
`write(d, |d|)` returns, afterwards `output()` is the old `output()` followed by `d`, and
`length()` has grown by exactly `|d|`; the statement covers the call that fits and the call
that reallocates alike. -/
theorem write_appends (w : Writer) (d : List UInt8) (a : Allocation) (hv : w.Valid)
    (hrange : w.length + d.length ≤ 2 ^ 63)
    (halloc : w._available.size < d.length → a.ptr ≠ 0) :
    ∃ w1, w.write d a = .ok w1 ∧ w1.outputBytes = w.outputBytes ++ d ∧
      w1.length = w.length + d.length := by
  obtain ⟨w1, h1, _, h3, h4⟩ := Writer.write_ok hv halloc hrange
  exact ⟨w1, h1, h4, h3⟩

/-- Witness of C1 on a call that has to reallocate: capacity 4, two bytes written, three
bytes appended. -/
theorem write_appends_witness :
    sampleWriter.Valid ∧ sampleWriter.length + [1, 2, 3].length ≤ 2 ^ 63 ∧
    (sampleWriter._available.size < [1, 2, 3].length → sampleAlloc.ptr ≠ 0) ∧
    ∃ w1, sampleWriter.write [1, 2, 3] sampleAlloc = .ok w1 ∧
      w1.outputBytes = sampleWriter.outputBytes ++ [1, 2, 3] ∧
      w1.length = sampleWriter.length + [1, 2, 3].length :=
  ⟨by decide, by decide, by decide,
    write_appends sampleWriter [1, 2, 3] sampleAlloc (by decide) (by decide) (by decide)⟩

/-- C2 fails on the code: on a writer of capacity 4 holding the two bytes 10 and 11,
`reserveSpace(2^64 - 1)` does not fit, `growToFit` computes `len + amount` as `1` and grows
the buffer to 8 bytes only, and the call returns the old length 2 but leaves `length()` at
`1`, not at `2 + n`, with an output of one byte, so that the first two bytes of the output
are not the old ones; and `reserveSpace(2^63 + 1)` on the same writer never returns. -/
theorem reserveSpace_length_wraps :
    sampleWriter.Valid ∧ sampleWriter.length = 2 ∧ sampleWriter.outputBytes = [10, 11] ∧
    sampleAlloc.ptr ≠ 0 ∧
    (∃ w1, sampleWriter.reserveSpace (2 ^ 64 - 1) sampleAlloc = .ok (2, w1) ∧
      w1.length = 1 ∧ w1.length ≠ sampleWriter.length + (2 ^ 64 - 1) ∧
      w1.outputBytes = [10] ∧
      w1.outputBytes.take sampleWriter.length ≠ sampleWriter.outputBytes) ∧
    sampleWriter.reserveSpace (2 ^ 63 + 1) sampleAlloc = .error .nontermination :=
  ⟨by decide, by decide, by decide, by decide,
    ⟨_, rfl, by decide, by decide, by decide, by decide⟩, rfl⟩

/-- Inside the non-wrapping range `reserveSpace` keeps its contract: for every valid writer
state and every `n` with `length() + n ≤ 2^63`, the allocation succeeding if one is needed,
`reserveSpace(n)` returns the value `length()` had before the call, afterwards `length()` is
that value plus `n`, and the first (old length) bytes of `output()` are unchanged. -/
theorem reserveSpace_returns_old_length (w : Writer) (n : Nat) (a : Allocation)
    (hv : w.Valid) (hrange : w.length + n ≤ 2 ^ 63)
    (halloc : w._available.size < n → a.ptr ≠ 0) :
    ∃ pos w1, w.reserveSpace n a = .ok (pos, w1) ∧ pos = w.length ∧
      w1.length = w.length + n ∧ w1.outputBytes.take w.length = w.outputBytes := by
  obtain ⟨w1, h1, _, h3, h4, _⟩ := Writer.reserveSpace_ok hv halloc hrange
  exact ⟨w.length, w1, h1, rfl, h3, h4⟩

/-- The contract of `reserveSpace` inside the range, on a call that has to reallocate. -/
theorem reserveSpace_returns_old_length_witness :
    sampleWriter.Valid ∧ sampleWriter.length + 7 ≤ 2 ^ 63 ∧
    (sampleWriter._available.size < 7 → sampleAlloc.ptr ≠ 0) ∧
    ∃ pos w1, sampleWriter.reserveSpace 7 sampleAlloc = .ok (pos, w1) ∧
      pos = sampleWriter.length ∧ w1.length = sampleWriter.length + 7 ∧
      w1.outputBytes.take sampleWriter.length = sampleWriter.outputBytes :=
  ⟨by decide, by decide, by decide,
    reserveSpace_returns_old_length sampleWriter 7 sampleAlloc (by decide) (by decide)
      (by decide)⟩

/-- C3: for every writer state, position `pos` and data `d` with
`pos + |d| <= length()`, `rewrite(pos, d)` returns, leaves `length()`, the capacity and both
slices unchanged, makes bytes `[pos, pos+|d|)` of `output()` equal to `d`, and leaves every
output byte outside that range unchanged. -/
theorem rewrite_frame (w : Writer) (pos : Nat) (d : List UInt8)
    (hfit : pos + d.length ≤ w.length) :
    ∃ w1, w.rewrite pos d = .ok w1 ∧ w1.length = w.length ∧
      w1._buffer = w._buffer ∧ w1._available = w._available ∧
      (w1.outputBytes.drop pos).take d.length = d ∧
      w1.outputBytes.length = w.outputBytes.length ∧
      ∀ i, i < pos ∨ pos + d.length ≤ i → w1.outputBytes[i]? = w.outputBytes[i]? :=
  Writer.rewrite_ok w pos d hfit

/-- Witness of C3: the second byte of a two-byte output is patched. -/
theorem rewrite_frame_witness :
    1 + [7].length ≤ sampleWriter.length ∧
    ∃ w1, sampleWriter.rewrite 1 [7] = .ok w1 ∧ w1.length = sampleWriter.length ∧
      w1._buffer = sampleWriter._buffer ∧ w1._available = sampleWriter._available ∧
      (w1.outputBytes.drop 1).take [7].length = [7] ∧
      w1.outputBytes.length = sampleWriter.outputBytes.length ∧
      ∀ i, i < 1 ∨ 1 + [7].length ≤ i → w1.outputBytes[i]? = sampleWriter.outputBytes[i]? :=
  ⟨by decide, rewrite_frame sampleWriter 1 [7] (by decide)⟩

/-- C4: for every writer state, `extractOutput()` (its shrinking `realloc`, when there
is one for a non-empty output, succeeding) returns a slice whose size is `length()` before
the call and whose bytes are `output()` before the call; the slice is the original buffer
when the buffer was full and the reallocated block of exactly that length when it was larger;
afterwards the writer is empty: `length() == 0` and `output()` is empty. -/
theorem extractOutput_yields_output (w : Writer) (a : Allocation)
    (halloc : 0 < w.length → w.length < w._buffer.size → a.ptr ≠ 0) :
    ∃ s w1, w.extractOutput a = .ok (s, w1) ∧ s.size = w.length ∧
      s.bytes w1.heap = w.outputBytes ∧
      s.buf = (if w.length < w._buffer.size then a.ptr else w._buffer.buf) ∧
      w1.length = 0 ∧ w1.outputBytes = [] := by
  by_cases hsh : w.length < w._buffer.size
  · refine ⟨⟨a.ptr, w.length⟩, ⟨slice.null, slice.null,
      realloc w.heap w._buffer.buf w._buffer.size w.length a⟩, ?_, rfl, ?_, by simp [hsh],
      Writer.length_null _, Writer.outputBytes_null _⟩
    · unfold Writer.extractOutput
      simp only [hsh, if_true]
    · simp only [Writer.outputBytes, Writer.output]
      by_cases h0 : 0 < w.length
      · exact slice.bytes_congr fun i hi =>
          realloc_apply_copied (halloc h0 hsh) (by omega) hi
      · have : w.length = 0 := by omega
        rw [this]
        rfl
  · refine ⟨⟨w._buffer.buf, w.length⟩, ⟨slice.null, slice.null, w.heap⟩, ?_, rfl, rfl,
      by simp [hsh], Writer.length_null _, Writer.outputBytes_null _⟩
    unfold Writer.extractOutput
    simp only [hsh, if_false]

/-- Witness of C4: a buffer of capacity 4 holding two bytes is shrunk and handed over. -/
theorem extractOutput_yields_output_witness :
    (0 < sampleWriter.length → sampleWriter.length < sampleWriter._buffer.size →
      sampleAlloc.ptr ≠ 0) ∧
    ∃ s w1, sampleWriter.extractOutput sampleAlloc = .ok (s, w1) ∧
      s.size = sampleWriter.length ∧ s.bytes w1.heap = sampleWriter.outputBytes ∧
      s.buf = (if sampleWriter.length < sampleWriter._buffer.size then sampleAlloc.ptr
        else sampleWriter._buffer.buf) ∧
      w1.length = 0 ∧ w1.outputBytes = [] :=
  ⟨by decide, extractOutput_yields_output sampleWriter sampleAlloc (by decide)⟩

/-- C5: for every initial capacity and every finite sequence of `write` /
`operator<<` calls on a freshly constructed writer (allocations succeeding, at most `2^63`
bytes written in total), the calls all return and `output()` is the concatenation of the
written byte sequences in call order; the right-hand side mentions neither the capacity nor
the allocator, so the output does not depend on capacity management. -/
theorem run_output_is_concatenation (h : Heap) (c : Nat) (a0 : Allocation)
    (calls : List (Call × Allocation)) (hc : c < SIZE_MOD) (ha0 : a0.ptr ≠ 0)
    (hallocs : ∀ x ∈ calls, x.2.ptr ≠ 0)
    (hrange : ((calls.map fun x => x.1.bytes).flatten).length ≤ 2 ^ 63) :
    ∃ w0 w1, Writer.new h c a0 = .ok w0 ∧ w0.run calls = .ok w1 ∧
      w1.outputBytes = (calls.map fun x => x.1.bytes).flatten := by
  obtain ⟨w0, hnew, hv0, hl0, ho0, _, _⟩ := Writer.new_ok (h := h) ha0 hc
  obtain ⟨w1, hrun, _, ho1⟩ := Writer.run_ok calls w0 hv0 hallocs (by rw [hl0]; omega)
  exact ⟨w0, w1, hnew, hrun, by rw [ho1, ho0]; simp⟩

/-- Witness of C5: a writer of initial capacity 1 receives a `write`, a byte and a slice. -/
theorem run_output_is_concatenation_witness :
    (1 < SIZE_MOD) ∧ sampleAlloc.ptr ≠ 0 ∧ (∀ x ∈ sampleCalls, x.2.ptr ≠ 0) ∧
    ((sampleCalls.map fun x => x.1.bytes).flatten).length ≤ 2 ^ 63 ∧
    ∃ w0 w1, Writer.new (fun _ => 0) 1 sampleAlloc = .ok w0 ∧ w0.run sampleCalls = .ok w1 ∧
      w1.outputBytes = (sampleCalls.map fun x => x.1.bytes).flatten :=
  ⟨by decide, by decide, by decide, by decide,
    run_output_is_concatenation (fun _ => 0) 1 sampleAlloc sampleCalls (by decide) (by decide)
      (by decide) (by decide)⟩

/-- C6: for every valid writer state and every byte sequence `d` (within the
non-wrapping range, allocations succeeding), `pos = reserveSpace(|d|)` followed by
`rewrite(pos, d)` returns, the bounds check of `rewrite` passing, and gives the same `length()`
and the same `output()` as `write(d, |d|)` on the same starting state. -/
theorem reserve_then_rewrite_eq_write (w : Writer) (d : List UInt8) (a a2 : Allocation)
    (hv : w.Valid) (hrange : w.length + d.length ≤ 2 ^ 63)
    (halloc : w._available.size < d.length → a.ptr ≠ 0)
    (halloc2 : w._available.size < d.length → a2.ptr ≠ 0) :
    ∃ pos w1 w2 w3, w.reserveSpace d.length a = .ok (pos, w1) ∧ w1.rewrite pos d = .ok w2 ∧
      w.write d a2 = .ok w3 ∧ w2.length = w3.length ∧ w2.outputBytes = w3.outputBytes := by
  obtain ⟨w1, hres, _, hl1, ho1, _⟩ := Writer.reserveSpace_ok hv halloc hrange
  obtain ⟨w2, hrw, hl2, _, _, hpatch, holen, hframe⟩ :=
    Writer.rewrite_ok w1 w.length d (by omega)
  obtain ⟨w3, hwr, _, hl3, ho3⟩ := Writer.write_ok hv halloc2 hrange
  refine ⟨w.length, w1, w2, w3, hres, hrw, hwr, by rw [hl2, hl1, hl3], ?_⟩
  have hlen2 : w2.outputBytes.length = w.length + d.length := by
    rw [holen]
    simp [Writer.outputBytes, slice.bytes_length, Writer.output, hl1]
  have hdrop : w2.outputBytes.drop w.length = d := by
    rw [List.take_of_length_le (by simp [hlen2])] at hpatch
    exact hpatch
  have htake : w2.outputBytes.take w.length = w.outputBytes := by
    rw [← ho1]
    apply List.ext_getElem?
    intro i
    rw [List.getElem?_take, List.getElem?_take]
    by_cases hi : i < w.length
    · simp only [hi, if_true]
      exact hframe i (Or.inl hi)
    · simp only [hi, if_false]
  rw [ho3, ← List.take_append_drop w.length w2.outputBytes, htake, hdrop]

/-- Witness of C6 on a call that has to reallocate. -/
theorem reserve_then_rewrite_eq_write_witness :
    sampleWriter.Valid ∧ sampleWriter.length + [1, 2, 3].length ≤ 2 ^ 63 ∧
    (sampleWriter._available.size < [1, 2, 3].length → sampleAlloc.ptr ≠ 0) ∧
    ∃ pos w1 w2 w3, sampleWriter.reserveSpace [1, 2, 3].length sampleAlloc = .ok (pos, w1) ∧
      w1.rewrite pos [1, 2, 3] = .ok w2 ∧ sampleWriter.write [1, 2, 3] sampleAlloc = .ok w3 ∧
      w2.length = w3.length ∧ w2.outputBytes = w3.outputBytes :=
  ⟨by decide, by decide, by decide,
    reserve_then_rewrite_eq_write sampleWriter [1, 2, 3] sampleAlloc sampleAlloc (by decide)
      (by decide) (by decide) (by decide)⟩

/-- C7 fails on the code: with a two-byte output, `pos = 2^64 - 1` and two bytes of
data, the sum `pos + data.size` wraps around to `1`, the check `1 <= length()` of `rewrite`
passes and `rewrite` returns, yet the range `[pos, pos + 2)` does not lie inside
`[0, length())` and the byte at offset `pos` of the buffer, far outside the written bytes,
has been overwritten. -/
theorem rewrite_check_wraps :
    size_add (2 ^ 64 - 1) [1, 2].length ≤ sampleWriter.length ∧
    (∃ w1, sampleWriter.rewrite (2 ^ 64 - 1) [1, 2] = .ok w1 ∧
      sampleWriter.heap (sampleWriter._buffer.buf + (2 ^ 64 - 1)) = 0 ∧
      w1.heap (sampleWriter._buffer.buf + (2 ^ 64 - 1)) = 1) ∧
    ¬ (2 ^ 64 - 1 + [1, 2].length ≤ sampleWriter.length) :=
  ⟨by decide, ⟨_, rfl, by decide, by decide⟩, by decide⟩

/-- C8 fails on the code for `extractOutput`: with a null answer of the allocator the
constructor, `write` and `reserveSpace` throw `std::bad_alloc`, but `extractOutput` on a
writer of capacity 4 holding two bytes returns normally, handing out the slice
`(nullptr, 2)`. -/
theorem extractOutput_ignores_null :
    (∀ (h : Heap) (c : Nat) (f : Nat → UInt8), Writer.new h c ⟨0, f⟩ = .error .bad_alloc) ∧
    sampleWriter.write [1, 2, 3] nullAlloc = .error .bad_alloc ∧
    sampleWriter.reserveSpace 3 nullAlloc = .error .bad_alloc ∧
    sampleWriter.length < sampleWriter._buffer.size ∧
    (∃ w1, sampleWriter.extractOutput nullAlloc = .ok (⟨0, 2⟩, w1)) :=
  ⟨fun _ _ _ => rfl, rfl, rfl, by decide, ⟨_, rfl⟩⟩

/-- C9 fails on the code: without any allocation failing, `rewrite(1, d)` with two
bytes of data on a two-byte output fails its `assert`, and `reserveSpace(2^63 + 1)` on a
writer of capacity 4 never leaves the doubling loop (`newSize` reaches `2^63`, then `0`,
and stays below `len + amount`). -/
theorem allocation_is_not_the_only_failure :
    sampleWriter.Valid ∧ sampleAlloc.ptr ≠ 0 ∧
    sampleWriter.rewrite 1 [1, 2] = .error .assertion ∧
    sampleWriter.reserveSpace (2 ^ 63 + 1) sampleAlloc = .error .nontermination :=
  ⟨by decide, by decide, rfl, rfl⟩

/-- C9 as amended: provided the allocation succeeds, on every valid writer state
`extractOutput` completes, `write` and `reserveSpace` of `n` bytes complete whenever
`length() + n <= 2^63`, and `rewrite(pos, d)` completes when its check
`pos + d.size <= length()` (in `size_t` arithmetic) passes and fails its `assert`
otherwise. -/
theorem completes_when_allocation_succeeds (w : Writer) (a : Allocation) (hv : w.Valid)
    (ha : a.ptr ≠ 0) :
    (∀ d : List UInt8, w.length + d.length ≤ 2 ^ 63 → ∃ w1, w.write d a = .ok w1) ∧
    (∀ n : Nat, w.length + n ≤ 2 ^ 63 → ∃ r, w.reserveSpace n a = .ok r) ∧
    (∀ (pos : Nat) (d : List UInt8),
      (size_add pos d.length ≤ w.length → ∃ w1, w.rewrite pos d = .ok w1) ∧
      (¬ size_add pos d.length ≤ w.length → w.rewrite pos d = .error .assertion)) ∧
    (∃ r, w.extractOutput a = .ok r) := by
  refine ⟨?_, ?_, ?_, ⟨_, rfl⟩⟩
  · intro d hd
    obtain ⟨w1, h1, _⟩ := Writer.write_ok hv (fun _ => ha) hd
    exact ⟨w1, h1⟩
  · intro n hn
    obtain ⟨w1, h1, _⟩ := Writer.reserveSpace_ok hv (fun _ => ha) hn
    exact ⟨_, h1⟩
  · intro pos d
    constructor
    · intro h
      refine ⟨{ w with heap := memcpy w.heap (w._buffer.buf + pos) d }, ?_⟩
      unfold Writer.rewrite
      simp only [h, if_true]
    · intro h
      unfold Writer.rewrite
      simp only [h, if_false]

/-- Witness of the amended C9. -/
theorem completes_when_allocation_succeeds_witness :
    sampleWriter.Valid ∧ sampleAlloc.ptr ≠ 0 ∧
    ((∀ d : List UInt8, sampleWriter.length + d.length ≤ 2 ^ 63 →
        ∃ w1, sampleWriter.write d sampleAlloc = .ok w1) ∧
      (∀ n : Nat, sampleWriter.length + n ≤ 2 ^ 63 →
        ∃ r, sampleWriter.reserveSpace n sampleAlloc = .ok r) ∧
      (∀ (pos : Nat) (d : List UInt8),
        (size_add pos d.length ≤ sampleWriter.length →
          ∃ w1, sampleWriter.rewrite pos d = .ok w1) ∧
        (¬ size_add pos d.length ≤ sampleWriter.length →
          sampleWriter.rewrite pos d = .error .assertion)) ∧
      (∃ r, sampleWriter.extractOutput sampleAlloc = .ok r)) :=
  ⟨by decide, by decide,
    completes_when_allocation_succeeds sampleWriter sampleAlloc (by decide) (by decide)⟩

/-- C10: when `write` or `reserveSpace` of `n` bytes does not fit in the remaining
capacity (the allocation succeeding and no `size_t` overflow on the way), the new capacity
is `c * 2^k` where `c` is the old capacity, or 128 when the old capacity is 0, and `k >= 1`
is the least exponent with `c * 2^k >= length() + n`; hence the capacity at least doubles
and a writer of capacity 0 grows to at least 256 bytes. -/
theorem growth_is_doubling (w : Writer) (d : List UInt8) (a : Allocation) (hv : w.Valid)
    (hgrow : w._available.size < d.length) (ha : a.ptr ≠ 0)
    (hno : NoOverflow (if w._buffer.size ≠ 0 then w._buffer.size else 128)
      (w.length + d.length)) :
    ∃ k w1 pos w2, 1 ≤ k ∧ w.write d a = .ok w1 ∧
      w.reserveSpace d.length a = .ok (pos, w2) ∧
      w1._buffer.size = (if w._buffer.size ≠ 0 then w._buffer.size else 128) * 2 ^ k ∧
      w2._buffer.size = (if w._buffer.size ≠ 0 then w._buffer.size else 128) * 2 ^ k ∧
      w.length + d.length ≤ (if w._buffer.size ≠ 0 then w._buffer.size else 128) * 2 ^ k ∧
      (∀ j, 1 ≤ j →
        w.length + d.length ≤ (if w._buffer.size ≠ 0 then w._buffer.size else 128) * 2 ^ j →
        k ≤ j) ∧
      2 * w._buffer.size ≤ w1._buffer.size ∧ 2 * w._buffer.size ≤ w2._buffer.size ∧
      (w._buffer.size = 0 → 256 ≤ w1._buffer.size ∧ 256 ≤ w2._buffer.size) := by
  obtain ⟨k, g, hk, hg, hbuf, hle, hmin, _⟩ := Writer.growToFit_ok hv ha hno
  have hsize : g._buffer.size
      = (if w._buffer.size ≠ 0 then w._buffer.size else 128) * 2 ^ k := by rw [hbuf]
  have h2k : 2 ^ 1 ≤ 2 ^ k := Nat.pow_le_pow_right (by norm_num) hk
  have hdouble : 2 * w._buffer.size ≤ g._buffer.size := by
    rw [hsize]
    have hc : w._buffer.size ≤ (if w._buffer.size ≠ 0 then w._buffer.size else 128) := by
      split <;> omega
    calc 2 * w._buffer.size = w._buffer.size * 2 ^ 1 := by ring
      _ ≤ (if w._buffer.size ≠ 0 then w._buffer.size else 128) * 2 ^ k :=
        Nat.mul_le_mul hc h2k
  have h256 : w._buffer.size = 0 → 256 ≤ g._buffer.size := by
    intro h0
    rw [hsize]
    simp only [h0, ne_eq, not_true_eq_false, if_false]
    calc 256 = 128 * 2 ^ 1 := by norm_num
      _ ≤ 128 * 2 ^ k := Nat.mul_le_mul_left _ h2k
  refine ⟨k, { g with heap := memcpy g.heap g._available.buf d,
                      _available := g._available.moveStart d.length },
    w.length, { g with _available := g._available.moveStart d.length },
    hk, ?_, ?_, hsize, hsize, ?_, hmin, hdouble, hdouble, fun h0 => ⟨h256 h0, h256 h0⟩⟩
  · unfold Writer.write
    simp only [hgrow, if_true, hg]
  · unfold Writer.reserveSpace
    simp only [hgrow, if_true, hg]
  · rw [← hsize]
    exact hle

/-- Witness of C10: capacity 4 holding two bytes grows to 8 for three more bytes. -/
theorem growth_is_doubling_witness :
    sampleWriter.Valid ∧ sampleWriter._available.size < [1, 2, 3].length ∧
    sampleAlloc.ptr ≠ 0 ∧
    ∃ k w1 pos w2, 1 ≤ k ∧ sampleWriter.write [1, 2, 3] sampleAlloc = .ok w1 ∧
      sampleWriter.reserveSpace [1, 2, 3].length sampleAlloc = .ok (pos, w2) ∧
      w1._buffer.size
        = (if sampleWriter._buffer.size ≠ 0 then sampleWriter._buffer.size else 128) * 2 ^ k ∧
      w2._buffer.size
        = (if sampleWriter._buffer.size ≠ 0 then sampleWriter._buffer.size else 128) * 2 ^ k ∧
      sampleWriter.length + [1, 2, 3].length
        ≤ (if sampleWriter._buffer.size ≠ 0 then sampleWriter._buffer.size else 128) * 2 ^ k ∧
      (∀ j, 1 ≤ j →
        sampleWriter.length + [1, 2, 3].length
          ≤ (if sampleWriter._buffer.size ≠ 0 then sampleWriter._buffer.size else 128) * 2 ^ j →
        k ≤ j) ∧
      2 * sampleWriter._buffer.size ≤ w1._buffer.size ∧
      2 * sampleWriter._buffer.size ≤ w2._buffer.size ∧
      (sampleWriter._buffer.size = 0 → 256 ≤ w1._buffer.size ∧ 256 ≤ w2._buffer.size) :=
  ⟨by decide, by decide, by decide,
    growth_is_doubling sampleWriter [1, 2, 3] sampleAlloc (by decide) (by decide) (by decide)
      ⟨1, by decide, by decide, by decide⟩⟩

/-- C11: a writer constructed with initial capacity `c` (256 when the argument is
omitted) and a successful allocation starts empty, `length() == 0` and `output()` the empty
byte sequence, and exactly `c` bytes can be written before the first reallocation: calls
writing at most `c` bytes in total return with `_buffer` untouched whatever the allocator
would answer, and a `write` that takes the total above `c` cannot return unless the allocator
hands out a block. -/
theorem new_starts_empty (h : Heap) (c : Nat) (a : Allocation) (hc : c < SIZE_MOD)
    (ha : a.ptr ≠ 0) :
    ∃ w, Writer.new h c a = .ok w ∧ w.length = 0 ∧ w.outputBytes = [] ∧
      Writer.new_default h a = Writer.new h 256 a ∧
      (∀ calls : List (Call × Allocation),
        ((calls.map fun x => x.1.bytes).flatten).length ≤ c →
        ∃ w1, w.run calls = .ok w1 ∧ w1._buffer = w._buffer ∧
          ∀ (d : List UInt8) (a2 : Allocation) (w2 : Writer),
            c < ((calls.map fun x => x.1.bytes).flatten).length + d.length →
            a2.ptr = 0 → w1.write d a2 ≠ .ok w2) := by
  obtain ⟨w, hnew, hv, hl, ho, hb, hav⟩ := Writer.new_ok (h := h) ha hc
  refine ⟨w, hnew, hl, ho, rfl, ?_⟩
  intro calls htot
  obtain ⟨w1, hrun, hb1, _, hs1⟩ := Writer.run_fits calls w hv (by rw [hav]; exact htot)
  refine ⟨w1, hrun, hb1, ?_⟩
  intro d a2 w2 hd ha2
  exact Writer.write_null ha2 (by rw [hs1, hav]; omega) w2

/-- Witness of C11: initial capacity 1. -/
theorem new_starts_empty_witness :
    1 < SIZE_MOD ∧ sampleAlloc.ptr ≠ 0 ∧
    ∃ w, Writer.new (fun _ => 0) 1 sampleAlloc = .ok w ∧ w.length = 0 ∧ w.outputBytes = [] ∧
      Writer.new_default (fun _ => 0) sampleAlloc = Writer.new (fun _ => 0) 256 sampleAlloc ∧
      (∀ calls : List (Call × Allocation),
        ((calls.map fun x => x.1.bytes).flatten).length ≤ 1 →
        ∃ w1, w.run calls = .ok w1 ∧ w1._buffer = w._buffer ∧
          ∀ (d : List UInt8) (a2 : Allocation) (w2 : Writer),
            1 < ((calls.map fun x => x.1.bytes).flatten).length + d.length →
            a2.ptr = 0 → w1.write d a2 ≠ .ok w2) :=
  ⟨by decide, by decide, new_starts_empty (fun _ => 0) 1 sampleAlloc (by decide) (by decide)⟩

/-- C15: for every writer state and every non-empty byte sequence `d` (of at most
`2^63` bytes, the allocation of the new buffer succeeding), `extractOutput()` followed by
`write(d, |d|)` returns with `output()` equal to exactly `d` and `length() == |d|`, in the
block the allocator has just handed out, whose capacity is at least 256. -/
theorem writer_reusable_after_extract (w : Writer) (d : List UInt8) (a1 a2 : Allocation)
    (hd : d ≠ []) (hrange : d.length ≤ 2 ^ 63) (ha2 : a2.ptr ≠ 0) :
    ∃ s w1 w2, w.extractOutput a1 = .ok (s, w1) ∧ w1.write d a2 = .ok w2 ∧
      w2.outputBytes = d ∧ w2.length = d.length ∧ w2._buffer.buf = a2.ptr ∧
      256 ≤ w2._buffer.size := by
  have hpos : 0 < d.length := List.length_pos.mpr hd
  have key : ∀ hp : Heap, ∃ w2, (⟨slice.null, slice.null, hp⟩ : Writer).write d a2 = .ok w2 ∧
      w2.outputBytes = d ∧ w2.length = d.length ∧ w2._buffer.buf = a2.ptr ∧
      256 ≤ w2._buffer.size := by
    intro hp
    have hv : (⟨slice.null, slice.null, hp⟩ : Writer).Valid := by
      refine ⟨?_, le_refl _, rfl⟩
      simp [slice.null, SIZE_MOD_eq]
    have hno : NoOverflow (if (⟨slice.null, slice.null, hp⟩ : Writer)._buffer.size ≠ 0
        then (⟨slice.null, slice.null, hp⟩ : Writer)._buffer.size else 128)
        ((⟨slice.null, slice.null, hp⟩ : Writer).length + d.length) := by
      rw [Writer.length_null]
      exact noOverflow_of_le (by simp [slice.null]) (by simp [slice.null]) (by omega)
    obtain ⟨k, w2, hk, hw, hbuf, _, hl, ho⟩ :=
      Writer.write_grow_ok hv (by simpa [slice.null] using hpos) ha2 hno
    rw [Writer.length_null] at hl
    rw [Writer.outputBytes_null] at ho
    refine ⟨w2, hw, by simpa using ho, by simpa using hl, by rw [hbuf], ?_⟩
    rw [hbuf]
    have h2k : 2 ^ 1 ≤ 2 ^ k := Nat.pow_le_pow_right (by norm_num) hk
    have : 128 * 2 ^ 1 ≤ 128 * 2 ^ k := Nat.mul_le_mul_left _ h2k
    simp only [slice.null, ne_eq, not_true_eq_false, if_false]
    omega
  by_cases hsh : w.length < w._buffer.size
  · obtain ⟨w2, h⟩ := key (realloc w.heap w._buffer.buf w._buffer.size w.length a1)
    refine ⟨⟨a1.ptr, w.length⟩, _, w2, ?_, h⟩
    unfold Writer.extractOutput
    simp only [hsh, if_true]
  · obtain ⟨w2, h⟩ := key w.heap
    refine ⟨⟨w._buffer.buf, w.length⟩, _, w2, ?_, h⟩
    unfold Writer.extractOutput
    simp only [hsh, if_false]

/-- Witness of C15: two bytes are extracted, three others are written afterwards. -/
theorem writer_reusable_after_extract_witness :
    ([1, 2, 3] : List UInt8) ≠ [] ∧ ([1, 2, 3] : List UInt8).length ≤ 2 ^ 63 ∧
    sampleAlloc.ptr ≠ 0 ∧
    ∃ s w1 w2, sampleWriter.extractOutput nullAlloc = .ok (s, w1) ∧
      w1.write [1, 2, 3] sampleAlloc = .ok w2 ∧ w2.outputBytes = [1, 2, 3] ∧
      w2.length = ([1, 2, 3] : List UInt8).length ∧ w2._buffer.buf = sampleAlloc.ptr ∧
      256 ≤ w2._buffer.size :=
  ⟨by decide, by decide, by decide,
    writer_reusable_after_extract sampleWriter [1, 2, 3] nullAlloc sampleAlloc (by decide)
      (by decide) (by decide)⟩

/-- C18: for every valid writer state, `pos` and `d` with `pos + |d| <= length()`, and
every byte sequence `e` (within the non-wrapping range, allocations succeeding),
`rewrite(pos, d)` followed by `write(e)` gives the same `length()` and `output()` as
`write(e)` followed by `rewrite(pos, d)`, whether or not `write(e)` reallocates. -/
theorem patch_commutes_with_append (w : Writer) (pos : Nat) (d e : List UInt8)
    (a a2 : Allocation) (hv : w.Valid) (hfit : pos + d.length ≤ w.length)
    (hrange : w.length + e.length ≤ 2 ^ 63)
    (halloc : w._available.size < e.length → a.ptr ≠ 0)
    (halloc2 : w._available.size < e.length → a2.ptr ≠ 0) :
    ∃ w1 w2 w3 w4, w.rewrite pos d = .ok w1 ∧ w1.write e a = .ok w2 ∧
      w.write e a2 = .ok w3 ∧ w3.rewrite pos d = .ok w4 ∧
      w2.length = w4.length ∧ w2.outputBytes = w4.outputBytes := by
  obtain ⟨w1, hrw1, hl1, hb1, hav1, ho1⟩ := Writer.rewrite_output w pos d hfit
  have hv1 : w1.Valid := hv.of_slices hb1 hav1
  obtain ⟨w2, hw2, _, hl2, ho2⟩ :=
    Writer.write_ok (d := e) hv1 (by rw [hav1]; exact halloc) (by rw [hl1]; exact hrange)
  obtain ⟨w3, hw3, _, hl3, ho3⟩ := Writer.write_ok hv halloc2 hrange
  obtain ⟨w4, hrw4, hl4, _, _, ho4⟩ := Writer.rewrite_output w3 pos d (by rw [hl3]; omega)
  refine ⟨w1, w2, w3, w4, hrw1, hw2, hw3, hrw4, by rw [hl2, hl1, hl4, hl3], ?_⟩
  have hlen : w.outputBytes.length = w.length := by
    simp [Writer.outputBytes, slice.bytes_length, Writer.output]
  rw [ho2, ho1, ho4, ho3, List.take_append_of_le_length (by omega),
    List.drop_append_of_le_length (by omega)]
  simp only [List.append_assoc]

/-- Witness of C18: the second byte is patched and three bytes are appended, which
reallocates. -/
theorem patch_commutes_with_append_witness :
    sampleWriter.Valid ∧ 1 + ([7] : List UInt8).length ≤ sampleWriter.length ∧
    sampleWriter.length + ([1, 2, 3] : List UInt8).length ≤ 2 ^ 63 ∧
    (sampleWriter._available.size < ([1, 2, 3] : List UInt8).length → sampleAlloc.ptr ≠ 0) ∧
    ∃ w1 w2 w3 w4, sampleWriter.rewrite 1 [7] = .ok w1 ∧
      w1.write [1, 2, 3] sampleAlloc = .ok w2 ∧
      sampleWriter.write [1, 2, 3] sampleAlloc = .ok w3 ∧ w3.rewrite 1 [7] = .ok w4 ∧
      w2.length = w4.length ∧ w2.outputBytes = w4.outputBytes :=
  ⟨by decide, by decide, by decide, by decide,
    patch_commutes_with_append sampleWriter 1 [7] [1, 2, 3] sampleAlloc sampleAlloc
      (by decide) (by decide) (by decide) (by decide) (by decide)⟩

/-- C19: if the reallocation inside `write` or `reserveSpace` fails (the call has to
grow, the doubling loop has produced a size and `realloc` answers null), `std::bad_alloc` is
thrown and the writer is left exactly as it was: same members and memory, hence the same
`length()`, `output()` and capacity. -/
theorem failed_growth_is_atomic (w : Writer) (d : List UInt8) (a : Allocation)
    (newSize : Nat) (hgrow : w._available.size < d.length)
    (hloop : growLoop 64 (if w._buffer.size ≠ 0 then w._buffer.size else 128)
      (size_add w.length d.length) = some newSize)
    (hnull : a.ptr = 0) :
    w.write d a = .error .bad_alloc ∧ w.reserveSpace d.length a = .error .bad_alloc ∧
    (w.write_ended d a).result = .error .bad_alloc ∧
    (w.reserveSpace_ended d.length a).result = .error .bad_alloc ∧
    (w.write_ended d a).writer = w ∧ (w.reserveSpace_ended d.length a).writer = w ∧
    (w.write_ended d a).writer.length = w.length ∧
    (w.write_ended d a).writer.outputBytes = w.outputBytes ∧
    (w.write_ended d a).writer._buffer.size = w._buffer.size ∧
    (w.reserveSpace_ended d.length a).writer.length = w.length ∧
    (w.reserveSpace_ended d.length a).writer.outputBytes = w.outputBytes ∧
    (w.reserveSpace_ended d.length a).writer._buffer.size = w._buffer.size := by
  have hg : w.growToFit d.length a = .error .bad_alloc := by
    unfold Writer.growToFit
    simp only [Writer.kDefaultInitialCapacity, Nat.reduceDiv, hloop, hnull, if_true]
  have hge : w.growToFit_ended d.length a = ⟨w, .error .bad_alloc⟩ := by
    unfold Writer.growToFit_ended
    simp only [Writer.kDefaultInitialCapacity, Nat.reduceDiv, hloop, hnull, if_true, realloc]
  have hw : w.write_ended d a = ⟨w, .error .bad_alloc⟩ := by
    unfold Writer.write_ended
    simp only [hgrow, if_true, hge]
  have hr : w.reserveSpace_ended d.length a = ⟨w, .error .bad_alloc⟩ := by
    unfold Writer.reserveSpace_ended
    simp only [hgrow, if_true, hge]
  refine ⟨?_, ?_, ?_, ?_, ?_, ?_, ?_, ?_, ?_, ?_, ?_, ?_⟩
  · unfold Writer.write
    simp only [hgrow, if_true, hg]
  · unfold Writer.reserveSpace
    simp only [hgrow, if_true, hg]
  all_goals simp only [hw, hr]

/-- Witness of C19: three bytes for a writer with room for two, the allocator answering
null. -/
theorem failed_growth_is_atomic_witness :
    sampleWriter._available.size < ([1, 2, 3] : List UInt8).length ∧
    growLoop 64 (if sampleWriter._buffer.size ≠ 0 then sampleWriter._buffer.size else 128)
      (size_add sampleWriter.length ([1, 2, 3] : List UInt8).length) = some 8 ∧
    nullAlloc.ptr = 0 ∧
    (sampleWriter.write [1, 2, 3] nullAlloc = .error .bad_alloc ∧
      sampleWriter.reserveSpace ([1, 2, 3] : List UInt8).length nullAlloc
        = .error .bad_alloc ∧
      (sampleWriter.write_ended [1, 2, 3] nullAlloc).result = .error .bad_alloc ∧
      (sampleWriter.reserveSpace_ended ([1, 2, 3] : List UInt8).length nullAlloc).result
        = .error .bad_alloc ∧
      (sampleWriter.write_ended [1, 2, 3] nullAlloc).writer = sampleWriter ∧
      (sampleWriter.reserveSpace_ended ([1, 2, 3] : List UInt8).length nullAlloc).writer
        = sampleWriter ∧
      (sampleWriter.write_ended [1, 2, 3] nullAlloc).writer.length = sampleWriter.length ∧
      (sampleWriter.write_ended [1, 2, 3] nullAlloc).writer.outputBytes
        = sampleWriter.outputBytes ∧
      (sampleWriter.write_ended [1, 2, 3] nullAlloc).writer._buffer.size
        = sampleWriter._buffer.size ∧
      (sampleWriter.reserveSpace_ended ([1, 2, 3] : List UInt8).length nullAlloc).writer.length
        = sampleWriter.length ∧
      (sampleWriter.reserveSpace_ended
          ([1, 2, 3] : List UInt8).length nullAlloc).writer.outputBytes
        = sampleWriter.outputBytes ∧
      (sampleWriter.reserveSpace_ended
          ([1, 2, 3] : List UInt8).length nullAlloc).writer._buffer.size
        = sampleWriter._buffer.size) :=
  ⟨by decide, by decide, by decide,
    failed_growth_is_atomic sampleWriter [1, 2, 3] nullAlloc 8 (by decide) (by decide)
      (by decide)⟩

/-- C20: for a request of `n` bytes on a valid writer state (within the non-wrapping
range, the allocation succeeding when one is needed), `write` and `reserveSpace` change the
capacity `_buffer.size` if and only if `n > capacity - length()`; when `n` fits, `n == 0`
included, `_buffer` is untouched and `_available` just moves its start forward by `n`,
shrinking by `n`. -/
theorem reallocates_exactly_when_needed (w : Writer) (d : List UInt8) (a : Allocation)
    (hv : w.Valid) (hrange : w.length + d.length ≤ 2 ^ 63)
    (halloc : w._available.size < d.length → a.ptr ≠ 0) :
    ∃ w1 pos w2, w.write d a = .ok w1 ∧ w.reserveSpace d.length a = .ok (pos, w2) ∧
      (w1._buffer.size ≠ w._buffer.size ↔ w._buffer.size - w.length < d.length) ∧
      (w2._buffer.size ≠ w._buffer.size ↔ w._buffer.size - w.length < d.length) ∧
      (d.length ≤ w._buffer.size - w.length →
        w1._buffer = w._buffer ∧ w2._buffer = w._buffer ∧
        w1._available = ⟨w._available.buf + d.length, w._available.size - d.length⟩ ∧
        w2._available = ⟨w._available.buf + d.length, w._available.size - d.length⟩) := by
  have hlen := hv.length_eq
  have hcap : w._buffer.size - w.length = w._available.size := by
    have := hv.2.1
    omega
  rw [hcap]
  by_cases hgrow : w._available.size < d.length
  · have hno : NoOverflow (if w._buffer.size ≠ 0 then w._buffer.size else 128)
        (w.length + d.length) := by
      apply noOverflow_of_le _ _ hrange
      · split <;> omega
      · have := hv.2.1
        norm_num at hrange ⊢
        split <;> omega
    obtain ⟨k, w1, hk, hw, hb1, _⟩ := Writer.write_grow_ok hv hgrow (halloc hgrow) hno
    obtain ⟨k2, w2, hk2, hr, hb2, _⟩ :=
      Writer.reserveSpace_grow_ok hv hgrow (halloc hgrow) hno
    refine ⟨w1, w.length, w2, hw, hr, ?_, ?_, ?_⟩
    · rw [hb1]
      exact ⟨fun _ => hgrow, fun _ => doubled_ne hk⟩
    · rw [hb2]
      exact ⟨fun _ => hgrow, fun _ => doubled_ne hk2⟩
    · intro h
      omega
  · obtain ⟨w1, hw, hb1, ha1, hs1, _⟩ := Writer.write_fits (d := d) a hv (by omega)
    obtain ⟨w2, hr, hb2, ha2, hs2, _⟩ := Writer.reserveSpace_fits (n := d.length) a hv (by omega)
    have hmove : w._available.moveStart d.length
        = ⟨w._available.buf + d.length, w._available.size - d.length⟩ := by
      simp only [slice.moveStart]
      rw [size_sub_of_le (by have := hv.1; have := hv.2.1; omega) (by omega)]
    refine ⟨w1, w.length, w2, hw, hr, ?_, ?_, ?_⟩
    · rw [hb1]
      exact ⟨fun h => absurd rfl h, fun h => absurd h hgrow⟩
    · rw [hb2]
      exact ⟨fun h => absurd rfl h, fun h => absurd h hgrow⟩
    · intro _
      exact ⟨hb1, hb2, by rw [ha1, hmove], by rw [ha2, hmove]⟩

/-- Witness of C20 on a request that does not fit. -/
theorem reallocates_exactly_when_needed_witness :
    sampleWriter.Valid ∧ sampleWriter.length + ([1, 2, 3] : List UInt8).length ≤ 2 ^ 63 ∧
    (sampleWriter._available.size < ([1, 2, 3] : List UInt8).length → sampleAlloc.ptr ≠ 0) ∧
    ∃ w1 pos w2, sampleWriter.write [1, 2, 3] sampleAlloc = .ok w1 ∧
      sampleWriter.reserveSpace ([1, 2, 3] : List UInt8).length sampleAlloc = .ok (pos, w2) ∧
      (w1._buffer.size ≠ sampleWriter._buffer.size ↔
        sampleWriter._buffer.size - sampleWriter.length < ([1, 2, 3] : List UInt8).length) ∧
      (w2._buffer.size ≠ sampleWriter._buffer.size ↔
        sampleWriter._buffer.size - sampleWriter.length < ([1, 2, 3] : List UInt8).length) ∧
      (([1, 2, 3] : List UInt8).length ≤ sampleWriter._buffer.size - sampleWriter.length →
        w1._buffer = sampleWriter._buffer ∧ w2._buffer = sampleWriter._buffer ∧
        w1._available = ⟨sampleWriter._available.buf + ([1, 2, 3] : List UInt8).length,
          sampleWriter._available.size - ([1, 2, 3] : List UInt8).length⟩ ∧
        w2._available = ⟨sampleWriter._available.buf + ([1, 2, 3] : List UInt8).length,
          sampleWriter._available.size - ([1, 2, 3] : List UInt8).length⟩) :=
  ⟨by decide, by decide, by decide,
    reallocates_exactly_when_needed sampleWriter [1, 2, 3] sampleAlloc (by decide) (by decide)
      (by decide)⟩

/-- C17: every writer state reachable from the size constructor by any sequence of
`write`, `reserveSpace`, `rewrite` and `extractOutput` calls, with any `size_t` arguments,
satisfies `_available.size <= _buffer.size` with `_available` ending at the address where
`_buffer` ends (addresses being 64-bit values), so that `length()` is
`_buffer.size - _available.size` without wrapping around and `length() <= capacity`. -/
theorem reachable_capacity_invariant (w : Writer) (hr : w.Reachable) :
    w._available.size ≤ w._buffer.size ∧
    (w._available.buf + w._available.size) % SIZE_MOD
      = (w._buffer.buf + w._buffer.size) % SIZE_MOD ∧
    w.length = w._buffer.size - w._available.size ∧ w.length ≤ w._buffer.size := by
  obtain ⟨h1, h2, h3⟩ := hr.capacityInv
  have hl : w.length = w._buffer.size - w._available.size := by
    unfold Writer.length
    exact size_sub_of_le h1 h2
  exact ⟨h2, h3, hl, by omega⟩

/-- Witness of C17: the state after `Writer(1)` and a `write` of three bytes. -/
theorem reachable_capacity_invariant_witness :
    sampleReached.Reachable ∧
    (sampleReached._available.size ≤ sampleReached._buffer.size ∧
      (sampleReached._available.buf + sampleReached._available.size) % SIZE_MOD
        = (sampleReached._buffer.buf + sampleReached._buffer.size) % SIZE_MOD ∧
      sampleReached.length = sampleReached._buffer.size - sampleReached._available.size ∧
      sampleReached.length ≤ sampleReached._buffer.size) :=
  have hr : sampleReached.Reachable :=
    Writer.Reachable.write sampleFresh [1, 2, 3] sampleAlloc2 sampleReached
      (Writer.Reachable.ctor (fun _ => 0) 1 sampleAlloc sampleFresh (by decide) rfl)
      (by decide) rfl
  ⟨hr, reachable_capacity_invariant sampleReached hr⟩

/-- C12: for every slice `s` and every encoder state, `Encoder::writeRaw(s)` throws a
`FleeceException` with error code `InvalidData` and leaves the encoder, its output
included, exactly as it was. -/
theorem writeRaw_always_throws {V T S : Type} (e : Encoder V T S) (s : slice) :
    (e.writeRaw s).2
      = .error ⟨ErrorCode.InvalidData, "Cannot write raw data to Fleece encoder"⟩ ∧
    (e.writeRaw s).1 = e ∧
    (e.writeRaw s).1._out.outputBytes = e._out.outputBytes ∧
    (e.writeRaw s).1._out.length = e._out.length :=
  ⟨rfl, rfl, rfl, rfl⟩

/-- C13: a newly constructed encoder has both options enabled and keeps them enabled
through any calls other than `uniqueStrings` and `sortKeys`; `uniqueStrings(b)` sets the
unique-strings flag to `b` and `sortKeys(b)` sets the sort-keys flag to `b`, each leaving the
other flag and all other encoder state unchanged (putting the old value of the flag back
gives the encoder one started from). -/
theorem encoder_option_flags {V T S : Type} (out : Writer) (items : Nat)
    (stack : List (valueArray V T)) (stackDepth : Nat) (strings : S) (base : slice) :
    (Encoder.fresh out items stack stackDepth strings base)._uniqueStrings = true ∧
    (Encoder.fresh out items stack stackDepth strings base)._sortKeys = true ∧
    (∀ calls : List EncoderCall, (∀ c ∈ calls, c.setsOption = false) →
      ((Encoder.fresh out items stack stackDepth strings base).run calls)._uniqueStrings = true ∧
      ((Encoder.fresh out items stack stackDepth strings base).run calls)._sortKeys = true) ∧
    (∀ (e : Encoder V T S) (b : Bool),
      (e.uniqueStrings b)._uniqueStrings = b ∧ (e.uniqueStrings b)._sortKeys = e._sortKeys ∧
      { e.uniqueStrings b with _uniqueStrings := e._uniqueStrings } = e ∧
      (e.sortKeys b)._sortKeys = b ∧ (e.sortKeys b)._uniqueStrings = e._uniqueStrings ∧
      { e.sortKeys b with _sortKeys := e._sortKeys } = e) := by
  refine ⟨rfl, rfl, ?_, ?_⟩
  · intro calls h
    obtain ⟨h1, h2⟩ :=
      Encoder.run_flags calls (Encoder.fresh out items stack stackDepth strings base) h
    exact ⟨by rw [h1]; rfl, by rw [h2]; rfl⟩
  · intro e b
    exact ⟨rfl, rfl, rfl, rfl, rfl, rfl⟩

/-- C14: for every array and every index `i >= count()`, `get(i)` returns `nullptr`
without dereferencing any slot; for an array with count 0 the first value is `nullptr` and no
slot is dereferenced; and whatever the index, a slot that `get` dereferences lies inside
the slots of the array. -/
theorem array_get_out_of_range (deref : Nat → Bool → Nat) (a : Array.impl) (i : Nat)
    (hi : a.count ≤ i) :
    a.get deref i = ⟨0, []⟩ ∧
    (a.count = 0 → a.firstValue deref = ⟨0, []⟩) ∧
    (∀ (j s : Nat), s ∈ (a.get deref j).derefs →
      a._first ≤ s ∧ s + slotWidth a._wide ≤ a._first + slotWidth a._wide * a.count) := by
  refine ⟨?_, ?_, ?_⟩
  · unfold Array.impl.get Array.impl.subscript
    have : i ≥ a._count := hi
    simp only [this, if_true]
  · intro h0
    have : a._count = 0 := h0
    unfold Array.impl.firstValue
    simp [this]
  · intro j s hs
    unfold Array.impl.get Array.impl.subscript at hs
    by_cases hj : j ≥ a._count
    · simp [hj] at hs
    · simp only [hj, if_false, List.mem_singleton] at hs
      subst hs
      have hlt : j + 1 ≤ a._count := by omega
      have := Nat.mul_le_mul_left (slotWidth a._wide) hlt
      unfold Array.impl.count
      rw [Nat.mul_add] at this
      omega

/-- Witness of C14: index 3 of an array of three items. -/
theorem array_get_out_of_range_witness :
    sampleArray.count ≤ 3 ∧
    (sampleArray.get (fun p _ => p) 3 = ⟨0, []⟩ ∧
      (sampleArray.count = 0 → sampleArray.firstValue (fun p _ => p) = ⟨0, []⟩) ∧
      (∀ (j s : Nat), s ∈ (sampleArray.get (fun p _ => p) j).derefs →
        sampleArray._first ≤ s ∧
        s + slotWidth sampleArray._wide
          ≤ sampleArray._first + slotWidth sampleArray._wide * sampleArray.count)) :=
  ⟨by decide, array_get_out_of_range (fun p _ => p) sampleArray 3 (by decide)⟩

/-- C16: a `Doc` whose root is null reports no container, `asDict()` and `asArray()`
both return `nullptr`; for a non-null root they return exactly `root()->asDict()` and
`root()->asArray()`. -/
theorem doc_containers_follow_root (valueAsDict valueAsArray : Nat → Nat) (d : Doc) :
    (d.root = 0 → d.asDict valueAsDict = 0 ∧ d.asArray valueAsArray = 0) ∧
    (d.root ≠ 0 → d.asDict valueAsDict = valueAsDict d.root ∧
      d.asArray valueAsArray = valueAsArray d.root) := by
  unfold Doc.asDict Doc.asArray Doc.root
  constructor
  · intro h
    simp [h]
  · intro h
    simp [h]

/-- C21 fails on the code: on a writer of capacity 4 holding two bytes,
`growToFit(2^64 - 1)` (reached through `reserveSpace(2^64 - 1)`, which does not fit) computes
`len + amount` as `1`, leaves the loop after one doubling and returns with capacity 8, far
below `length() + amount`; `reserveSpace` then returns position 2 and leaves `length()` at
`1`. -/
theorem growToFit_sum_wraps :
    sampleWriter._available.size < 2 ^ 64 - 1 ∧
    size_add sampleWriter.length (2 ^ 64 - 1) = 1 ∧
    (∃ g, sampleWriter.growToFit (2 ^ 64 - 1) sampleAlloc = .ok g ∧ g._buffer.size = 8 ∧
      ¬ (sampleWriter.length + (2 ^ 64 - 1) ≤ g._buffer.size)) ∧
    (∃ w1, sampleWriter.reserveSpace (2 ^ 64 - 1) sampleAlloc = .ok (2, w1) ∧
      w1._buffer.size = 8 ∧ w1.length = 1) :=
  ⟨by decide, by decide, ⟨_, rfl, rfl, by decide⟩, ⟨_, rfl, rfl, by decide⟩⟩

/-- C22: for every writer state with capacity below `2^63` and every amount with
`length() + amount <= 2^63`, the starting size of the doubling is not 0 and the `do`/`while`
loop of `growToFit` exits after `k` doublings for some `1 <= k <= 64` (it exits within `k`
iterations and not within `k - 1`), so `growToFit` does not run forever. -/
theorem growToFit_loop_terminates (w : Writer) (amount : Nat) (a : Allocation)
    (hcap : w._buffer.size < 2 ^ 63) (hrange : w.length + amount ≤ 2 ^ 63) :
    (if w._buffer.size ≠ 0 then w._buffer.size else Writer.kDefaultInitialCapacity / 2) ≠ 0 ∧
    (∃ k, 1 ≤ k ∧ k ≤ 64 ∧
      growLoop k (if w._buffer.size ≠ 0 then w._buffer.size else 128)
        (size_add w.length amount)
        = some ((if w._buffer.size ≠ 0 then w._buffer.size else 128) * 2 ^ k) ∧
      growLoop (k - 1) (if w._buffer.size ≠ 0 then w._buffer.size else 128)
        (size_add w.length amount) = none) ∧
    w.growToFit amount a ≠ .error .nontermination := by
  have hc1 : 1 ≤ (if w._buffer.size ≠ 0 then w._buffer.size else 128) := by
    split <;> omega
  have hc63 : (if w._buffer.size ≠ 0 then w._buffer.size else 128) < 2 ^ 63 := by
    norm_num at hcap ⊢
    split <;> omega
  have hadd : size_add w.length amount = w.length + amount :=
    size_add_of_lt (by rw [SIZE_MOD_eq]; norm_num at hrange; omega)
  obtain ⟨k, hk1, h64, hle, hM, hmin⟩ :=
    growLoop_of_noOverflow hc1 (noOverflow_of_le hc1 hc63 hrange)
  have hbelow : ∀ j, 1 ≤ j → j < k →
      (if w._buffer.size ≠ 0 then w._buffer.size else 128) * 2 ^ j < w.length + amount := by
    intro j hj1 hj2
    by_contra hcon
    have := hmin j hj1 (by omega)
    omega
  have hk64 : k ≤ 64 := by
    by_contra hcon
    have h65 : 2 ^ 64 ≤ 2 ^ k := Nat.pow_le_pow_right (by norm_num) (by omega)
    have : 1 * 2 ^ k ≤ (if w._buffer.size ≠ 0 then w._buffer.size else 128) * 2 ^ k :=
      Nat.mul_le_mul_right _ hc1
    unfold SIZE_MOD at hM
    omega
  refine ⟨?_, ⟨k, hk1, hk64, ?_, ?_⟩, ?_⟩
  · simp only [Writer.kDefaultInitialCapacity, Nat.reduceDiv]
    omega
  · rw [hadd]
    exact growLoop_exact k _ _ k hk1 (le_refl k) hM hle hbelow
  · rw [hadd, growLoop_eq_none_iff]
    intro j hj1 hj2
    have hjk : j < k := by omega
    have hpow : (if w._buffer.size ≠ 0 then w._buffer.size else 128) * 2 ^ j
        ≤ (if w._buffer.size ≠ 0 then w._buffer.size else 128) * 2 ^ k :=
      Nat.mul_le_mul_left _ (Nat.pow_le_pow_right (by norm_num) (by omega))
    rw [Nat.mod_eq_of_lt (by omega)]
    exact hbelow j hj1 hjk
  · unfold Writer.growToFit
    simp only [Writer.kDefaultInitialCapacity, Nat.reduceDiv, hadd, h64]
    split <;> simp

/-- Witness of C22: three more bytes for a writer of capacity 4 holding two. -/
theorem growToFit_loop_terminates_witness :
    sampleWriter._buffer.size < 2 ^ 63 ∧ sampleWriter.length + 3 ≤ 2 ^ 63 ∧
    ((if sampleWriter._buffer.size ≠ 0 then sampleWriter._buffer.size
        else Writer.kDefaultInitialCapacity / 2) ≠ 0 ∧
      (∃ k, 1 ≤ k ∧ k ≤ 64 ∧
        growLoop k (if sampleWriter._buffer.size ≠ 0 then sampleWriter._buffer.size else 128)
          (size_add sampleWriter.length 3)
          = some ((if sampleWriter._buffer.size ≠ 0 then sampleWriter._buffer.size else 128)
            * 2 ^ k) ∧
        growLoop (k - 1)
          (if sampleWriter._buffer.size ≠ 0 then sampleWriter._buffer.size else 128)
          (size_add sampleWriter.length 3) = none) ∧
      sampleWriter.growToFit 3 sampleAlloc ≠ .error .nontermination) :=
  ⟨by decide, by decide,
    growToFit_loop_terminates sampleWriter 3 sampleAlloc (by decide) (by decide)⟩

/-- C23 fails on the code: a writer of capacity 4 holding two bytes satisfies the
invariant, but after it has been moved from, by construction or by assignment (to another
object or to itself), its `_buffer` is null while `_available` still has size 2, so
`_available.size <= _buffer.size` no longer holds and `length()` wraps around to
`2^64 - 2`. -/
theorem moved_from_length_wraps :
    sampleWriter.Valid ∧ sampleObjects.writer 2 = sampleWriter ∧
    sampleWriter.move_construct.source.length = 2 ^ 64 - 2 ∧
    ((Writer.move_assign sampleObjects 1 2).writer 2).length = 2 ^ 64 - 2 ∧
    ((Writer.move_assign sampleObjects 2 2).writer 2).length = 2 ^ 64 - 2 ∧
    ¬ (sampleWriter.move_construct.source._available.size
        ≤ sampleWriter.move_construct.source._buffer.size) ∧
    ¬ (((Writer.move_assign sampleObjects 1 2).writer 2)._available.size
        ≤ ((Writer.move_assign sampleObjects 1 2).writer 2)._buffer.size) :=
  ⟨by decide, rfl, by decide, by decide, by decide, by decide, by decide⟩

/-- What a move assignment leaves in the object it moved from, whether the destination is
another object or that object itself. -/
theorem Writer.move_assign_source (o : Objects) (self p : Nat) :
    (Writer.move_assign o self p).writer p = (o.writer p).move_construct.source := by
  unfold Writer.move_assign Objects.writer Writer.move_construct
  by_cases h : p = self
  · subst h
    simp
  · simp [h]

/-- C23 as amended: after move construction or move assignment from a writer `w`
(the object at address `p`; the assignment may be to another object or to `w` itself),
`w._buffer` is the null slice and `w._available` and the memory are unchanged, so
`w.length()` is `0 - _available.size` in `size_t` arithmetic: it is 0 exactly when `w` had no
room left, and `2^64 - _available.size` otherwise. -/
theorem moved_from_keeps_available (o : Objects) (self p : Nat)
    (hsz : (o.writer p)._available.size < SIZE_MOD) :
    (Writer.move_assign o self p).writer p = (o.writer p).move_construct.source ∧
    (o.writer p).move_construct.source._buffer = slice.null ∧
    (o.writer p).move_construct.source._available = (o.writer p)._available ∧
    (o.writer p).move_construct.source.heap = (o.writer p).heap ∧
    (o.writer p).move_construct.source.length = size_sub 0 (o.writer p)._available.size ∧
    ((o.writer p).move_construct.source.length = 0 ↔ (o.writer p)._available.size = 0) ∧
    (0 < (o.writer p)._available.size →
      (o.writer p).move_construct.source.length
        = SIZE_MOD - (o.writer p)._available.size) := by
  have hl : (o.writer p).move_construct.source.length
      = size_sub 0 (o.writer p)._available.size := rfl
  have hval : size_sub 0 (o.writer p)._available.size
      = if (o.writer p)._available.size = 0 then 0
        else SIZE_MOD - (o.writer p)._available.size := by
    unfold size_sub
    rw [SIZE_MOD_eq] at *
    split <;> omega
  refine ⟨Writer.move_assign_source o self p, rfl, rfl, rfl, hl, ?_, ?_⟩
  · rw [hl, hval]
    rw [SIZE_MOD_eq] at *
    split <;> omega
  · intro hpos
    rw [hl, hval]
    have : ¬ (o.writer p)._available.size = 0 := by omega
    simp only [this, if_false]

/-- Witness of the amended C23: the object at address 2 is moved to the object at
address 1. -/
theorem moved_from_keeps_available_witness :
    (sampleObjects.writer 2)._available.size < SIZE_MOD ∧
    ((Writer.move_assign sampleObjects 1 2).writer 2
        = (sampleObjects.writer 2).move_construct.source ∧
      (sampleObjects.writer 2).move_construct.source._buffer = slice.null ∧
      (sampleObjects.writer 2).move_construct.source._available
        = (sampleObjects.writer 2)._available ∧
      (sampleObjects.writer 2).move_construct.source.heap = (sampleObjects.writer 2).heap ∧
      (sampleObjects.writer 2).move_construct.source.length
        = size_sub 0 (sampleObjects.writer 2)._available.size ∧
      ((sampleObjects.writer 2).move_construct.source.length = 0 ↔
        (sampleObjects.writer 2)._available.size = 0) ∧
      (0 < (sampleObjects.writer 2)._available.size →
        (sampleObjects.writer 2).move_construct.source.length
          = SIZE_MOD - (sampleObjects.writer 2)._available.size)) :=
  ⟨by decide, moved_from_keeps_available sampleObjects 1 2 (by decide)⟩

/-- C24 fails on the code: when a writer of capacity 4 holding two bytes is move-assigned
to itself, `w = std::move(w)`, the destination is the source, and afterwards it has a null
`_buffer`: its capacity is 0 instead of 4 and its `length()` is `2^64 - 2` instead of 2. -/
theorem self_move_assign_loses_state :
    (sampleObjects.writer 2).length = 2 ∧ (sampleObjects.writer 2)._buffer.size = 4 ∧
    (sampleObjects.writer 2).outputBytes = [10, 11] ∧
    ((Writer.move_assign sampleObjects 2 2).writer 2)._buffer = slice.null ∧
    ((Writer.move_assign sampleObjects 2 2).writer 2)._buffer.size = 0 ∧
    ((Writer.move_assign sampleObjects 2 2).writer 2).length = 2 ^ 64 - 2 ∧
    ((Writer.move_assign sampleObjects 2 2).writer 2).outputBytes
      ≠ (sampleObjects.writer 2).outputBytes :=
  ⟨by decide, by decide, by decide, by decide, by decide, by decide, by
    intro h
    have hlen := congrArg List.length h
    simp only [Writer.outputBytes, slice.bytes_length, Writer.output] at hlen
    revert hlen
    decide⟩

/-- C24 as amended: for every source writer `w`, the destination of a move construction,
and of a move assignment to an object other than `w` whatever that object held before, has
both slices of `w`, hence the `length()`, `output()` and capacity `w` had before the move. -/
theorem move_transfers_state (o : Objects) (self p : Nat) (w : Writer) (hother : self ≠ p) :
    w.move_construct.dest._buffer = w._buffer ∧
    w.move_construct.dest._available = w._available ∧
    w.move_construct.dest.length = w.length ∧
    w.move_construct.dest.outputBytes = w.outputBytes ∧
    w.move_construct.dest._buffer.size = w._buffer.size ∧
    ((Writer.move_assign o self p).writer self)._buffer = (o.writer p)._buffer ∧
    ((Writer.move_assign o self p).writer self)._available = (o.writer p)._available ∧
    ((Writer.move_assign o self p).writer self).length = (o.writer p).length ∧
    ((Writer.move_assign o self p).writer self).outputBytes = (o.writer p).outputBytes ∧
    ((Writer.move_assign o self p).writer self)._buffer.size = (o.writer p)._buffer.size := by
  have hd : (Writer.move_assign o self p).writer self = o.writer p := by
    unfold Writer.move_assign Objects.writer
    simp [hother]
  refine ⟨rfl, rfl, rfl, rfl, rfl, ?_, ?_, ?_, ?_, ?_⟩ <;> rw [hd]

/-- Witness of the amended C24: the object at address 2 is moved to the object at
address 1. -/
theorem move_transfers_state_witness :
    (1 : Nat) ≠ 2 ∧
    (sampleWriter.move_construct.dest._buffer = sampleWriter._buffer ∧
      sampleWriter.move_construct.dest._available = sampleWriter._available ∧
      sampleWriter.move_construct.dest.length = sampleWriter.length ∧
      sampleWriter.move_construct.dest.outputBytes = sampleWriter.outputBytes ∧
      sampleWriter.move_construct.dest._buffer.size = sampleWriter._buffer.size ∧
      ((Writer.move_assign sampleObjects 1 2).writer 1)._buffer
        = (sampleObjects.writer 2)._buffer ∧
      ((Writer.move_assign sampleObjects 1 2).writer 1)._available
        = (sampleObjects.writer 2)._available ∧
      ((Writer.move_assign sampleObjects 1 2).writer 1).length
        = (sampleObjects.writer 2).length ∧
      ((Writer.move_assign sampleObjects 1 2).writer 1).outputBytes
        = (sampleObjects.writer 2).outputBytes ∧
      ((Writer.move_assign sampleObjects 1 2).writer 1)._buffer.size
        = (sampleObjects.writer 2)._buffer.size) :=
  ⟨by decide, move_transfers_state sampleObjects 1 2 sampleWriter (by decide)⟩

end fleece
